import Mathlib

/-!
A shallow embedding of `epollServer.c`, the epoll echo server.

The C program is a single-threaded TCP echo server driven by `epoll`.  Its
functions are embedded as Lean functions that pass the program state
explicitly and return, besides their result, the list of observable actions
(library calls and reads of the readiness array) they perform, in order.

Values the operating system chooses (the result of `accept`, of `recv`, ...)
are arguments of the embedded functions.
-/

namespace EpollServer

/-! ## Constants -/

/-- One byte of socket data (a C `char` cell of the scratch buffer). -/
abbrev Byte := Fin 256

/-- The macro `TRUE`: `#define TRUE 1`. -/
def TRUE : Int := 1

/-- The macro `FALSE`: `#define FALSE 0`. -/
def FALSE : Int := 0

/-- The macro `EPOLL_QUEUE_LEN`: `#define EPOLL_QUEUE_LEN 256`. -/
def EPOLL_QUEUE_LEN : Nat := 256

/-- The macro `BUFLEN`: `#define BUFLEN 80`. -/
def BUFLEN : Int := 80

/-- The flag `EPOLLIN` of `<sys/epoll.h>` (Linux value). -/
def EPOLLIN : Nat := 0x001

/-- The flag `EPOLLERR` of `<sys/epoll.h>` (Linux value). -/
def EPOLLERR : Nat := 0x008

/-- The flag `EPOLLHUP` of `<sys/epoll.h>` (Linux value). -/
def EPOLLHUP : Nat := 0x010

/-- The flag `EPOLLET` of `<sys/epoll.h>` (Linux value, `1u << 31`). -/
def EPOLLET : Nat := 0x80000000

/-- The error number `EAGAIN` of `<errno.h>` (Linux value). -/
def EAGAIN : Int := 11

/-- The error number `EWOULDBLOCK` of `<errno.h>` (on Linux the same number as `EAGAIN`). -/
def EWOULDBLOCK : Int := 11

/-- The status `EXIT_SUCCESS` of `<stdlib.h>`. -/
def EXIT_SUCCESS : Int := 0

/-- The status `EXIT_FAILURE` of `<stdlib.h>`. -/
def EXIT_FAILURE : Int := 1

/-! ## Data model -/

/-- A `struct epoll_event`: the flag word `events` and the descriptor stored in
`data.fd`. -/
structure EpollEvent where
  events : Nat
  fd : Int
  deriving DecidableEq, Repr, Inhabited

/-- What one call of `recv` did: it stored `bytes` at the address it was given
and returned their number (`0` when `bytes` is empty: end of stream), or it
stored nothing, set `errno` and returned `-1`. -/
inductive RecvResult where
  | data (bytes : List Byte)
  | fail (errno : Int)
  deriving DecidableEq, Repr

/-- The value `recv` returns. -/
def RecvResult.n : RecvResult → Int
  | .data bytes => (bytes.length : Int)
  | .fail _ => -1

/-- The bytes `recv` stored. -/
def RecvResult.bytes : RecvResult → List Byte
  | .data bytes => bytes
  | .fail _ => []

/-- An observable action of the program.  `read index` is a read of
`info.events[index]`; `recv fd off len r` is the call `recv (fd, buf + off, len, 0)`
answered by `r`; `blocked fd off len` is such a call that has not been answered;
`send fd payload` is `send (fd, buf, BUFLEN, 0)` with the contents of the eighty
cells of `buf` (`none` is a cell that was never written); the other
constructors are the library calls of the same name with their result. -/
inductive Obs where
  | read (index : Int)
  | close (fd : Int)
  | fputs (msg : String)
  | perror (msg : String)
  | exit (code : Int)
  | assert_fail
  | listen (fd : Int) (ret : Int)
  | epoll_create (ret : Int)
  | epoll_ctl_add (epfd : Int) (fd : Int) (ev : EpollEvent) (ret : Int)
  | epoll_wait (epfd : Int) (ret : Int)
  | accept (fd : Int) (ret : Int)
  | getfl (fd : Int) (ret : Int)
  | setfl (fd : Int) (ret : Int)
  | recv (fd : Int) (off : Int) (len : Int) (r : RecvResult)
  | blocked (fd : Int) (off : Int) (len : Int)
  | send (fd : Int) (payload : List (Option Byte))
  deriving DecidableEq, Repr

/-- Why a function did not return to its caller: the process left through
`exit`, a failed `assert` aborted it, a call waits for an answer that the given
answers do not contain, or the step budget of a loop ran out. -/
inductive Halt where
  | exit (code : Int)
  | abort
  | blocked
  | fuel
  deriving DecidableEq, Repr

/-- The result of running a function: it returned `a`, or it did not return. -/
inductive Res (α : Type) where
  | ret (a : α)
  | halt (h : Halt)
  deriving DecidableEq, Repr

/-- The outcome of running a function: the actions performed and the result. -/
structure Out (α : Type) where
  trace : List Obs
  res : Res α
  deriving DecidableEq, Repr

/-- Actions `pre` happen, then `x` runs. -/
def Out.after {α : Type} (pre : List Obs) (x : Out α) : Out α :=
  ⟨pre ++ x.trace, x.res⟩

/-- Sequencing: `x` runs; when it returns, `f` runs on its value. -/
def Out.bind {α β : Type} (x : Out α) (f : α → Out β) : Out β :=
  match x.res with
  | .ret a => ⟨x.trace ++ (f a).trace, (f a).res⟩
  | .halt h => ⟨x.trace, .halt h⟩

/-- The program state: the globals `fd_server` and `info` (`epoll_fd`, `events`)
and the two variables of `main` that the handlers receive by pointer, the
static `event` and the loop index `i`. -/
structure Server where
  fd_server : Int
  epoll_fd : Int
  events : List EpollEvent
  event : EpollEvent
  i : Int
  deriving DecidableEq, Repr

/-- The entry `info.events[index]`.  Outside the array the C read is undefined;
the embedding then yields the zero entry, and every read is recorded in the
trace with its index. -/
def readEvent (s : Server) (index : Int) : EpollEvent :=
  s.events.getD index.toNat default

/-- The answers of the operating system to the calls made while one readiness
event is handled: the value of `accept` and the `errno` it leaves, the values of
the two `fcntl` calls and of `epoll_ctl`, and the answers of the successive
`recv` calls. -/
structure Oracle where
  accept_ret : Int
  errno : Int
  getfl_ret : Int
  setfl_ret : Int
  ctl_ret : Int
  recvs : List RecvResult

/-! ## SystemFatal and close_fd -/

/-- The function `SystemFatal`: `perror (message); exit (EXIT_FAILURE);` -/
def SystemFatal {α : Type} (message : String) : Out α :=
  ⟨[.perror message, .exit EXIT_FAILURE], .halt (.exit EXIT_FAILURE)⟩

/-- The function `close_fd`, the SIGINT handler: `close(fd_server); exit (EXIT_SUCCESS);` -/
def close_fd {α : Type} (s : Server) : Out α :=
  ⟨[.close s.fd_server, .exit EXIT_SUCCESS], .halt (.exit EXIT_SUCCESS)⟩

/-! ## ClearSocket -/

/-- The locals of `ClearSocket`: `bp` as the offset `bp - buf`, `bytes_to_read`,
and the cells of `buf` (`none`: not written since the function was entered). -/
structure EchoState where
  bp : Int
  bytes_to_read : Int
  buf : List (Option Byte)
  deriving DecidableEq, Repr

/-- The memory after `recv` stored its bytes at offset `bp` of `buf`.  Cells
past index 79 are outside the array (the C behaviour is then undefined); the
list grows to show them and `send` takes the first eighty cells. -/
def recvInto (buf : List (Option Byte)) (bp : Int) (r : RecvResult) : List (Option Byte) :=
  match r with
  | .data bytes => buf.take bp.toNat ++ bytes.map some ++ buf.drop (bp.toNat + bytes.length)
  | .fail _ => buf

/-- The `do ... while (n > 0)` loop of `ClearSocket` together with its inner
`while ((n = recv (fd, bp, bytes_to_read, 0)) < BUFLEN)` loop, run on the answers
`rs` of the successive `recv` calls.  Every pass starts with a `recv`:
* `n < BUFLEN` and not `n <= 0`: the body `bp += n; bytes_to_read -= n;` runs and
  the inner loop goes on;
* otherwise the inner loop is left (by its condition or by `break`); then
  `if (n > 0) send (fd, buf, BUFLEN, 0);` and `while (n > 0)` decide between
  another pass of the outer loop and `return FALSE`. -/
def ClearSocketLoop (fd : Int) : EchoState → List RecvResult → Out Int
  | st, [] => ⟨[.blocked fd st.bp st.bytes_to_read], .halt .blocked⟩
  | st, r :: rs =>
    let n := r.n
    let buf := recvInto st.buf st.bp r
    if n < BUFLEN ∧ ¬ n ≤ 0 then
      (ClearSocketLoop fd ⟨st.bp + n, st.bytes_to_read - n, buf⟩ rs).after
        [.recv fd st.bp st.bytes_to_read r]
    else if n > 0 then
      (ClearSocketLoop fd ⟨st.bp, st.bytes_to_read, buf⟩ rs).after
        [.recv fd st.bp st.bytes_to_read r, .send fd (buf.take BUFLEN.toNat)]
    else
      ⟨[.recv fd st.bp st.bytes_to_read r], .ret FALSE⟩

/-- The function `ClearSocket (fd)`: `bp = buf; bytes_to_read = BUFLEN;` then the loops. -/
def ClearSocket (fd : Int) (rs : List RecvResult) : Out Int :=
  ClearSocketLoop fd ⟨0, BUFLEN, List.replicate BUFLEN.toNat none⟩ rs

/-! ## The handlers -/

/-- The function `handleError (&i)`: it returns the value and the state (with
`*i`) on return; a failed `assert` aborts. -/
def handleError (s : Server) : Out (Int × Server) :=
  if (readEvent s s.i).events &&& (EPOLLHUP ||| EPOLLERR) ≠ 0 then
    ⟨[.read s.i, .fputs "epoll: EPOLLERR", .read s.i, .close (readEvent s s.i).fd],
      .ret (1, s)⟩
  else if (readEvent s s.i).events &&& EPOLLIN ≠ 0 then
    ⟨[.read s.i, .read s.i], .ret (0, s)⟩
  else
    ⟨[.read s.i, .read s.i, .assert_fail], .halt .abort⟩

/-- The function `handleConnection (&event, &i)`: it returns the value and the
state (with `*event` and `*i`) on return, or leaves through `SystemFatal`. -/
def handleConnection (s : Server) (o : Oracle) : Out (Int × Server) :=
  if (readEvent s s.i).fd = s.fd_server then
    let fd_new := o.accept_ret
    if fd_new = -1 then
      if o.errno ≠ EAGAIN ∧ o.errno ≠ EWOULDBLOCK then
        ⟨[.read s.i, .accept s.fd_server fd_new, .perror "accept"], .ret (1, s)⟩
      else
        ⟨[.read s.i, .accept s.fd_server fd_new], .ret (1, s)⟩
    else if o.setfl_ret = -1 then
      (SystemFatal "fcntl").after
        [.read s.i, .accept s.fd_server fd_new, .getfl fd_new o.getfl_ret,
          .setfl fd_new o.setfl_ret]
    else
      let s1 : Server := { s with event := { s.event with fd := fd_new } }
      if o.ctl_ret = -1 then
        (SystemFatal "epoll_ctl").after
          [.read s.i, .accept s.fd_server fd_new, .getfl fd_new o.getfl_ret,
            .setfl fd_new o.setfl_ret, .epoll_ctl_add s1.epoll_fd fd_new s1.event o.ctl_ret]
      else
        ⟨[.read s.i, .accept s.fd_server fd_new, .getfl fd_new o.getfl_ret,
            .setfl fd_new o.setfl_ret, .epoll_ctl_add s1.epoll_fd fd_new s1.event o.ctl_ret],
          .ret (1, s1)⟩
  else
    ⟨[.read s.i], .ret (0, s)⟩

/-- The function `handleData (&i)`:
`if (!ClearSocket (info.events[*i].data.fd)) close (info.events[*i].data.fd);` -/
def handleData (s : Server) (o : Oracle) : Out Server :=
  ((ClearSocket (readEvent s s.i).fd o.recvs).after [.read s.i]).bind fun v =>
    if v = 0 then
      ⟨[.read s.i, .close (readEvent s s.i).fd], .ret s⟩
    else
      ⟨[], .ret s⟩

/-! ## setupFD and the event loop of main -/

/-- The interest mask `EPOLLIN | EPOLLERR | EPOLLHUP | EPOLLET`. -/
def INTEREST : Nat := EPOLLIN ||| EPOLLERR ||| EPOLLHUP ||| EPOLLET

/-- The function `setupFD (&event)`, given the values of `listen`, `epoll_create` and
`epoll_ctl`. -/
def setupFD (s : Server) (listen_ret create_ret ctl_ret : Int) : Out Server :=
  if listen_ret = -1 then
    (SystemFatal "listen").after [.listen s.fd_server listen_ret]
  else
    let s1 : Server := { s with epoll_fd := create_ret }
    if s1.epoll_fd = -1 then
      (SystemFatal "epoll_create").after
        [.listen s.fd_server listen_ret, .epoll_create create_ret]
    else
      let s2 : Server := { s1 with event := ⟨INTEREST, s1.fd_server⟩ }
      if ctl_ret = -1 then
        (SystemFatal "epoll_ctl").after
          [.listen s.fd_server listen_ret, .epoll_create create_ret,
            .epoll_ctl_add s2.epoll_fd s2.fd_server s2.event ctl_ret]
      else
        ⟨[.listen s.fd_server listen_ret, .epoll_create create_ret,
            .epoll_ctl_add s2.epoll_fd s2.fd_server s2.event ctl_ret], .ret s2⟩

/-- The body of `for (i = 0; i < num_fds; i++)` at the current index `s.i`:
`if (handleError(&i)) continue; if (handleConnection(&event, &i)) continue; handleData(&i);` -/
def loopBody (s : Server) (o : Oracle) : Out Server :=
  (handleError s).bind fun r1 =>
    if r1.1 ≠ 0 then ⟨[], .ret r1.2⟩
    else (handleConnection r1.2 o).bind fun r2 =>
      if r2.1 ≠ 0 then ⟨[], .ret r2.2⟩
      else handleData r2.2 o

/-- The loop `for (...; i < num_fds; i++)` from the current index on, with a
budget of passes.  `oracle j` holds the answers of the operating system while
the event at index `j` is handled. -/
def forLoop (num_fds : Int) (oracle : Int → Oracle) : Nat → Server → Out Server
  | 0, s => if s.i < num_fds then ⟨[], .halt .fuel⟩ else ⟨[], .ret s⟩
  | k + 1, s =>
    if s.i < num_fds then
      (loopBody s (oracle s.i)).bind fun s1 =>
        forLoop num_fds oracle k { s1 with i := s1.i + 1 }
    else ⟨[], .ret s⟩

/-- What happens while `main` is in `epoll_wait`: SIGINT arrives and the handler
`close_fd` runs, or the call returns `num_fds` after storing `ready` in the
first entries of `info.events`. -/
inductive WaitResult where
  | sigint
  | ret (num_fds : Int) (ready : List EpollEvent) (oracle : Int → Oracle)

/-- One pass of `while (TRUE)` after `epoll_wait` returned `num_fds`:
`if (num_fds < 0) SystemFatal (...)`, then the `for` loop from `i = 0`. -/
def iteration (s : Server) (num_fds : Int) (ready : List EpollEvent)
    (oracle : Int → Oracle) : Out Server :=
  let s1 : Server := { s with events := ready ++ s.events.drop ready.length }
  if num_fds < 0 then
    (SystemFatal "Error in epoll_wait!").after [.epoll_wait s.epoll_fd num_fds]
  else
    (forLoop num_fds oracle num_fds.toNat { s1 with i := 0 }).after
      [.epoll_wait s.epoll_fd num_fds]

/-- The loop `while (TRUE)` of `main`, run on the successive outcomes of
`epoll_wait`; when they are used up the process is blocked in `epoll_wait`. -/
def mainLoop : Server → List WaitResult → Out Server
  | _, [] => ⟨[], .halt .blocked⟩
  | s, .sigint :: _ => close_fd s
  | s, .ret num_fds ready oracle :: ws =>
    (iteration s num_fds ready oracle).bind fun s1 => mainLoop s1 ws

/-! ## Concrete inputs -/

/-- A block of `k` bytes, all equal to `b`. -/
def block (b : Byte) (k : Nat) : List Byte := List.replicate k b

/-- Eighty bytes delivered as 40 + 40, then end of stream. -/
def splitReads : List RecvResult := [.data (block 1 40), .data (block 2 40), .data []]

/-- Two whole blocks, then three bytes, then a failing `recv`. -/
def wholeThenPartialReads : List RecvResult :=
  [.data (block 1 80), .data (block 2 80), .data (block 3 3), .fail 11]

/-- A state after `setupFD`: listening socket 3, epoll descriptor 4, two ready
entries (descriptor 7 readable, descriptor 3 readable), loop index 0. -/
def sampleServer : Server :=
  ⟨3, 4, [⟨EPOLLIN, 7⟩, ⟨EPOLLIN, 3⟩], ⟨EPOLLIN ||| EPOLLERR ||| EPOLLHUP ||| EPOLLET, 3⟩, 0⟩

/-- Answers for one event: `accept` gives 8, both `fcntl` calls and `epoll_ctl`
succeed, and `recv` delivers `rs`. -/
def sampleOracle (rs : List RecvResult) : Oracle := ⟨8, 0, 2, 0, 0, rs⟩

/-- Two ready entries: the listening socket 3 readable, then client 7 readable. -/
def listenerThenClient : List EpollEvent := [⟨EPOLLIN, 3⟩, ⟨EPOLLIN, 7⟩]

/-- Answers for one event where `accept` gives 8 and `epoll_ctl` then fails. -/
def ctlFailsOracle : Oracle := ⟨8, 0, 2, 0, -1, [.data []]⟩

/-- One ready entry: the listening socket 3 with `EPOLLERR`. -/
def listenerError : List EpollEvent := [⟨EPOLLERR, 3⟩]

/-- The state before `setupFD`: listening socket 3, nothing else set. -/
def freshServer : Server := ⟨3, 0, [], ⟨0, 0⟩, 0⟩

/-- Three calls of `handleConnection`: on the listening socket with `accept`
giving 8, on client 7, and on the listening socket with `accept` failing. -/
def sampleCalls : List (Int × List EpollEvent × Oracle) :=
  [(0, [⟨EPOLLIN, 3⟩], ⟨8, 0, 2, 0, 0, []⟩),
   (0, [⟨EPOLLIN, 7⟩], ⟨9, 0, 2, 0, 0, []⟩),
   (0, [⟨EPOLLIN, 3⟩], ⟨-1, 11, 0, 0, 0, []⟩)]

/-! ## Reading traces -/

/-- The `send` an action is, if it is one: descriptor and payload. -/
def Obs.sendOf : Obs → Option (Int × List (Option Byte))
  | .send fd payload => some (fd, payload)
  | _ => none

/-- The descriptor an action closes, if it is a `close`. -/
def Obs.closeOf : Obs → Option Int
  | .close fd => some fd
  | _ => none

/-- The `accept` an action is, if it is one: listening descriptor and result. -/
def Obs.acceptOf : Obs → Option (Int × Int)
  | .accept fd ret => some (fd, ret)
  | _ => none

/-- The `epoll_ctl (epfd, EPOLL_CTL_ADD, fd, ev)` an action is, if it is one. -/
def Obs.addOf : Obs → Option (Int × Int × EpollEvent)
  | .epoll_ctl_add epfd fd ev _ => some (epfd, fd, ev)
  | _ => none

/-- The index of `info.events` an action reads, if it is such a read. -/
def Obs.readOf : Obs → Option Int
  | .read index => some index
  | _ => none

/-- The message an action writes to the error stream, if it writes one. -/
def Obs.diagnosticOf : Obs → Option String
  | .perror msg => some msg
  | .fputs msg => some msg
  | _ => none

/-- The sends of a trace, in order. -/
def sends (tr : List Obs) : List (Int × List (Option Byte)) := tr.filterMap Obs.sendOf

/-- The descriptors closed in a trace, in order. -/
def closes (tr : List Obs) : List Int := tr.filterMap Obs.closeOf

/-- The `accept` calls of a trace, in order. -/
def accepts (tr : List Obs) : List (Int × Int) := tr.filterMap Obs.acceptOf

/-- The `EPOLL_CTL_ADD` registrations of a trace, in order. -/
def registrations (tr : List Obs) : List (Int × Int × EpollEvent) := tr.filterMap Obs.addOf

/-- The indices at which a trace reads `info.events`, in order. -/
def reads (tr : List Obs) : List Int := tr.filterMap Obs.readOf

/-- The messages a trace writes to the error stream, in order. -/
def diagnostics (tr : List Obs) : List String := tr.filterMap Obs.diagnosticOf

/-- A `recv` action honours its length argument when it returns at most the
number of bytes requested; every other action passes. -/
def recvHonoursLength : Obs → Bool
  | .recv _ _ len r => decide (r.n ≤ len)
  | _ => true

/-- The invariant of the loops of `ClearSocket` at a call of `recv` with
offset `off = bp - buf` and length `len = bytes_to_read`. -/
def loopInvariant (off len : Int) : Prop :=
  0 ≤ len ∧ len ≤ BUFLEN ∧ off + len = BUFLEN

/-- An action of the echo path: a `recv` (answered or not) or a `send`. -/
def Obs.isEcho : Obs → Bool
  | .recv _ _ _ _ => true
  | .blocked _ _ _ => true
  | .send _ _ => true
  | _ => false

/-- Two states agree except, possibly, in the field `data.fd` of `event`. -/
def sameUpToEventFd (s t : Server) : Prop :=
  s.fd_server = t.fd_server ∧ s.epoll_fd = t.epoll_fd ∧ s.events = t.events ∧
    s.event.events = t.event.events ∧ s.i = t.i

/-- Successive calls of `handleConnection`; before each call the caller has set
the loop index to `call.1` and `epoll_wait` has left `call.2.1` in `info.events`,
and `call.2.2` holds the answers of the operating system during the call. -/
def connCalls : Server → List (Int × List EpollEvent × Oracle) → Out Server
  | s, [] => ⟨[], .ret s⟩
  | s, call :: calls =>
    (handleConnection { s with i := call.1, events := call.2.1 } call.2.2).bind fun r =>
      connCalls r.2 calls

/-- The descriptor a call of `handleConnection` registers when it returns: the
one `accept` gave, when the entry at the index is the listening socket and
`accept` did not fail. -/
def acceptedBy (fd_server : Int) (call : Int × List EpollEvent × Oracle) : Option Int :=
  if (call.2.1.getD call.1.toNat default).fd = fd_server ∧ call.2.2.accept_ret ≠ -1 then
    some call.2.2.accept_ret
  else none

/-- The traces of the passes of a loop, in order, up to and including the first
pass that does not return (after it nothing runs). -/
def servicedTraces {α : Type} : List (Out α) → List Obs
  | [] => []
  | b :: bs =>
    match b.res with
    | .ret _ => b.trace ++ servicedTraces bs
    | .halt _ => b.trace

/-! ## Lemmas on traces -/

theorem sends_append (a b : List Obs) : sends (a ++ b) = sends a ++ sends b := by
  simp [sends]

theorem closes_append (a b : List Obs) : closes (a ++ b) = closes a ++ closes b := by
  simp [closes]

theorem after_trace {α : Type} (pre : List Obs) (x : Out α) :
    (x.after pre).trace = pre ++ x.trace := rfl

theorem after_res {α : Type} (pre : List Obs) (x : Out α) :
    (x.after pre).res = x.res := rfl

/-! ## Lemmas on ClearSocket -/

theorem loop_nil (fd : Int) (st : EchoState) :
    ClearSocketLoop fd st [] = ⟨[.blocked fd st.bp st.bytes_to_read], .halt .blocked⟩ := rfl

theorem loop_short (fd : Int) (st : EchoState) (r : RecvResult) (rs : List RecvResult)
    (h1 : r.n < BUFLEN) (h2 : 0 < r.n) :
    ClearSocketLoop fd st (r :: rs) =
      (ClearSocketLoop fd ⟨st.bp + r.n, st.bytes_to_read - r.n, recvInto st.buf st.bp r⟩ rs).after
        [.recv fd st.bp st.bytes_to_read r] := by
  have h3 : ¬ r.n ≤ 0 := by omega
  simp [ClearSocketLoop, h1, h3]

theorem loop_full (fd : Int) (st : EchoState) (r : RecvResult) (rs : List RecvResult)
    (h1 : BUFLEN ≤ r.n) :
    ClearSocketLoop fd st (r :: rs) =
      (ClearSocketLoop fd ⟨st.bp, st.bytes_to_read, recvInto st.buf st.bp r⟩ rs).after
        [.recv fd st.bp st.bytes_to_read r,
          .send fd ((recvInto st.buf st.bp r).take BUFLEN.toNat)] := by
  have h2 : ¬ r.n < BUFLEN := by omega
  have h3 : r.n > 0 := by unfold BUFLEN at h1; omega
  simp [ClearSocketLoop, h2, h3]

theorem loop_stop (fd : Int) (st : EchoState) (r : RecvResult) (rs : List RecvResult)
    (h1 : r.n ≤ 0) :
    ClearSocketLoop fd st (r :: rs) = ⟨[.recv fd st.bp st.bytes_to_read r], .ret FALSE⟩ := by
  have h3 : ¬ r.n > 0 := by omega
  simp [ClearSocketLoop, h1, h3]

theorem loop_cases (r : RecvResult) :
    r.n ≤ 0 ∨ (0 < r.n ∧ r.n < BUFLEN) ∨ BUFLEN ≤ r.n := by
  unfold BUFLEN; omega

theorem full_recv_is_data (r : RecvResult) (h : r.n = BUFLEN) :
    ∃ bytes, r = .data bytes ∧ bytes.length = 80 := by
  cases r with
  | data bytes =>
    refine ⟨bytes, rfl, ?_⟩
    simp only [RecvResult.n, BUFLEN] at h
    omega
  | fail e => simp [RecvResult.n, BUFLEN] at h

theorem recvInto_full (buf : List (Option Byte)) (bytes : List Byte) (h : bytes.length = 80) :
    (recvInto buf 0 (.data bytes)).take BUFLEN.toNat = bytes.map some := by
  have h80 : BUFLEN.toNat = 80 := rfl
  simp only [recvInto, h80, Int.toNat_zero, List.take_zero, List.nil_append]
  rw [List.take_append_of_le_length (by simp [h])]
  rw [List.take_of_length_le (by simp [h])]

/-- The function `ClearSocket` closes nothing. -/
theorem loop_closes (fd : Int) (rs : List RecvResult) :
    ∀ st : EchoState, closes (ClearSocketLoop fd st rs).trace = [] := by
  induction rs with
  | nil => intro st; simp [loop_nil, closes, Obs.closeOf]
  | cons r rs ih =>
    intro st
    rcases loop_cases r with h | ⟨h1, h2⟩ | h
    · simp [loop_stop fd st r rs h, closes, Obs.closeOf]
    · rw [loop_short fd st r rs h2 h1, after_trace, closes_append, ih]
      simp [closes, Obs.closeOf]
    · rw [loop_full fd st r rs h, after_trace, closes_append, ih]
      simp [closes, Obs.closeOf]

/-- Once fewer than `BUFLEN` bytes are requested, nothing is sent any more. -/
theorem loop_no_send_when_short (fd : Int) (rs : List RecvResult) :
    ∀ st : EchoState, st.bytes_to_read < BUFLEN →
      (∀ o ∈ (ClearSocketLoop fd st rs).trace, recvHonoursLength o = true) →
      sends (ClearSocketLoop fd st rs).trace = [] := by
  induction rs with
  | nil => intro st _ _; simp [loop_nil, sends, Obs.sendOf]
  | cons r rs ih =>
    intro st hlt hok
    rcases loop_cases r with h | ⟨h1, h2⟩ | h
    · simp [loop_stop fd st r rs h, sends, Obs.sendOf]
    · rw [loop_short fd st r rs h2 h1, after_trace] at hok
      rw [loop_short fd st r rs h2 h1, after_trace, sends_append]
      rw [ih _ (by show st.bytes_to_read - r.n < BUFLEN; omega)
        (fun o ho => hok o (List.mem_append_right _ ho))]
      simp [sends, Obs.sendOf]
    · rw [loop_full fd st r rs h, after_trace] at hok
      have := hok (.recv fd st.bp st.bytes_to_read r) (by simp)
      simp only [recvHonoursLength, decide_eq_true_eq] at this
      omega

/-- From the initial values of `bp` and `bytes_to_read` the sends are the
leading answers of exactly `BUFLEN` bytes. -/
theorem loop_sends_fresh (fd : Int) (rs : List RecvResult) :
    ∀ st : EchoState, st.bp = 0 → st.bytes_to_read = BUFLEN →
      (∀ o ∈ (ClearSocketLoop fd st rs).trace, recvHonoursLength o = true) →
      sends (ClearSocketLoop fd st rs).trace =
        (rs.takeWhile fun r => decide (r.n = BUFLEN)).map fun r => (fd, r.bytes.map some) := by
  induction rs with
  | nil => intro st _ _ _; simp [loop_nil, sends, Obs.sendOf]
  | cons r rs ih =>
    intro st hbp hlen hok
    rcases loop_cases r with h | ⟨h1, h2⟩ | h
    · have hne : ¬ r.n = BUFLEN := by unfold BUFLEN; omega
      simp [loop_stop fd st r rs h, sends, Obs.sendOf, List.takeWhile_cons, hne]
    · have hne : ¬ r.n = BUFLEN := by omega
      rw [loop_short fd st r rs h2 h1, after_trace] at hok
      rw [loop_short fd st r rs h2 h1, after_trace, sends_append]
      rw [loop_no_send_when_short fd rs _ (by show st.bytes_to_read - r.n < BUFLEN; omega)
        (fun o ho => hok o (List.mem_append_right _ ho))]
      simp [sends, Obs.sendOf, List.takeWhile_cons, hne]
    · rw [loop_full fd st r rs h, after_trace] at hok
      have hr := hok (.recv fd st.bp st.bytes_to_read r) (by simp)
      simp only [recvHonoursLength, decide_eq_true_eq] at hr
      have heq : r.n = BUFLEN := by omega
      obtain ⟨bytes, rfl, hb⟩ := full_recv_is_data r heq
      rw [loop_full fd st _ rs h, after_trace, sends_append]
      rw [ih ⟨st.bp, st.bytes_to_read, recvInto st.buf st.bp (.data bytes)⟩ hbp hlen
        (fun o ho => hok o (List.mem_append_right _ ho))]
      rw [hbp, recvInto_full _ bytes hb]
      simp [sends, Obs.sendOf, List.takeWhile_cons, heq, RecvResult.bytes]

/-- After an answer of between 1 and `BUFLEN - 1` bytes nothing is sent. -/
theorem loop_no_send_after_short (fd : Int) (rs : List RecvResult) :
    ∀ (st : EchoState) (pre post : List Obs) (fd1 off len : Int) (r : RecvResult),
      st.bytes_to_read ≤ BUFLEN →
      (∀ o ∈ (ClearSocketLoop fd st rs).trace, recvHonoursLength o = true) →
      (ClearSocketLoop fd st rs).trace = pre ++ Obs.recv fd1 off len r :: post →
      0 < r.n → r.n < BUFLEN → sends post = [] := by
  induction rs with
  | nil =>
    intro st pre post fd1 off len r _ _ htr _ _
    rw [loop_nil] at htr
    cases pre with
    | nil => simp at htr
    | cons x pre => simp at htr
  | cons r0 rs ih =>
    intro st pre post fd1 off len r hle hok htr hpos hlt
    rcases loop_cases r0 with h | ⟨h1, h2⟩ | h
    · rw [loop_stop fd st r0 rs h] at htr
      cases pre with
      | nil =>
        simp only [List.nil_append, List.cons.injEq, Obs.recv.injEq] at htr
        obtain ⟨⟨-, -, -, rfl⟩, -⟩ := htr
        omega
      | cons x pre => simp at htr
    · rw [loop_short fd st r0 rs h2 h1, after_trace] at htr hok
      have hok2 : ∀ o ∈ (ClearSocketLoop fd
          ⟨st.bp + r0.n, st.bytes_to_read - r0.n, recvInto st.buf st.bp r0⟩ rs).trace,
          recvHonoursLength o = true := fun o ho => hok o (List.mem_append_right _ ho)
      cases pre with
      | nil =>
        simp only [List.nil_append, List.singleton_append, List.cons.injEq] at htr
        rw [← htr.2]
        exact loop_no_send_when_short fd rs _
          (by show st.bytes_to_read - r0.n < BUFLEN; omega) hok2
      | cons x pre =>
        simp only [List.singleton_append, List.cons_append, List.cons.injEq] at htr
        exact ih _ pre post fd1 off len r
          (by show st.bytes_to_read - r0.n ≤ BUFLEN; omega) hok2 htr.2 hpos hlt
    · rw [loop_full fd st r0 rs h, after_trace] at htr hok
      have hok2 : ∀ o ∈ (ClearSocketLoop fd
          ⟨st.bp, st.bytes_to_read, recvInto st.buf st.bp r0⟩ rs).trace,
          recvHonoursLength o = true := fun o ho => hok o (List.mem_append_right _ ho)
      cases pre with
      | nil =>
        simp only [List.nil_append, List.cons_append, List.cons.injEq, Obs.recv.injEq] at htr
        obtain ⟨⟨-, -, -, rfl⟩, -⟩ := htr
        omega
      | cons x pre =>
        cases pre with
        | nil => simp at htr
        | cons y pre =>
          simp only [List.cons_append, List.nil_append, List.cons.injEq] at htr
          exact ih ⟨st.bp, st.bytes_to_read, recvInto st.buf st.bp r0⟩ pre post fd1 off len r
            hle hok2 htr.2.2 hpos hlt

/-- The first `recv` of a trace honours its length argument. -/
theorem head_recv_ok (fd : Int) (st : EchoState) (r : RecvResult) (rest : List Obs)
    (hok : ∀ o ∈ Obs.recv fd st.bp st.bytes_to_read r :: rest, recvHonoursLength o = true) :
    r.n ≤ st.bytes_to_read := by
  have := hok (.recv fd st.bp st.bytes_to_read r) (by simp)
  simpa only [recvHonoursLength, decide_eq_true_eq] using this

/-- The loop invariant holds at every `recv` call, and the bytes stored stay
inside `buf`. -/
theorem loop_recv_invariant (fd : Int) (rs : List RecvResult) :
    ∀ st : EchoState, loopInvariant st.bp st.bytes_to_read →
      (∀ o ∈ (ClearSocketLoop fd st rs).trace, recvHonoursLength o = true) →
      ∀ (fd1 off len : Int) (r : RecvResult),
        Obs.recv fd1 off len r ∈ (ClearSocketLoop fd st rs).trace →
        fd1 = fd ∧ loopInvariant off len ∧ 0 ≤ off ∧ (0 < r.n → off + r.n ≤ BUFLEN) := by
  induction rs with
  | nil => intro st _ _ fd1 off len r hm; simp [loop_nil] at hm
  | cons r0 rs ih =>
    intro st hinv hok fd1 off len r hm
    have hhead : ∀ rest, (∀ o ∈ Obs.recv fd st.bp st.bytes_to_read r0 :: rest,
        recvHonoursLength o = true) →
        Obs.recv fd1 off len r = Obs.recv fd st.bp st.bytes_to_read r0 →
        fd1 = fd ∧ loopInvariant off len ∧ 0 ≤ off ∧ (0 < r.n → off + r.n ≤ BUFLEN) := by
      intro rest hk he
      have hn := head_recv_ok fd st r0 rest hk
      simp only [Obs.recv.injEq] at he
      obtain ⟨rfl, rfl, rfl, rfl⟩ := he
      obtain ⟨h0, h80, hsum⟩ := hinv
      exact ⟨rfl, ⟨h0, h80, hsum⟩, by omega, fun _ => by omega⟩
    rcases loop_cases r0 with h | ⟨h1, h2⟩ | h
    · rw [loop_stop fd st r0 rs h] at hm hok
      simp only [List.mem_singleton] at hm
      exact hhead [] hok hm
    · rw [loop_short fd st r0 rs h2 h1, after_trace] at hm hok
      simp only [List.singleton_append, List.mem_cons] at hm
      rcases hm with hm | hm
      · exact hhead _ hok hm
      · have hn := head_recv_ok fd st r0 _ hok
        obtain ⟨h0, h80, hsum⟩ := hinv
        exact ih ⟨st.bp + r0.n, st.bytes_to_read - r0.n, recvInto st.buf st.bp r0⟩
          ⟨by show 0 ≤ st.bytes_to_read - r0.n; omega,
            by show st.bytes_to_read - r0.n ≤ BUFLEN; omega,
            by show st.bp + r0.n + (st.bytes_to_read - r0.n) = BUFLEN; omega⟩
          (fun o ho => hok o (List.mem_append_right _ ho)) fd1 off len r hm
    · rw [loop_full fd st r0 rs h, after_trace] at hm hok
      simp only [List.cons_append, List.nil_append, List.mem_cons] at hm
      rcases hm with hm | hm | hm
      · exact hhead _ hok hm
      · simp at hm
      · exact ih ⟨st.bp, st.bytes_to_read, recvInto st.buf st.bp r0⟩ hinv
          (fun o ho => hok o (List.mem_append_right _ ho)) fd1 off len r hm

/-- The loop invariant holds at a `recv` call left unanswered. -/
theorem loop_blocked_invariant (fd : Int) (rs : List RecvResult) :
    ∀ st : EchoState, loopInvariant st.bp st.bytes_to_read →
      (∀ o ∈ (ClearSocketLoop fd st rs).trace, recvHonoursLength o = true) →
      ∀ (fd1 off len : Int),
        Obs.blocked fd1 off len ∈ (ClearSocketLoop fd st rs).trace →
        fd1 = fd ∧ loopInvariant off len := by
  induction rs with
  | nil =>
    intro st hinv _ fd1 off len hm
    simp only [loop_nil, List.mem_singleton, Obs.blocked.injEq] at hm
    obtain ⟨rfl, rfl, rfl⟩ := hm
    exact ⟨rfl, hinv⟩
  | cons r0 rs ih =>
    intro st hinv hok fd1 off len hm
    rcases loop_cases r0 with h | ⟨h1, h2⟩ | h
    · rw [loop_stop fd st r0 rs h] at hm
      simp at hm
    · rw [loop_short fd st r0 rs h2 h1, after_trace] at hm hok
      simp only [List.singleton_append, List.mem_cons] at hm
      rcases hm with hm | hm
      · simp at hm
      · have hn := head_recv_ok fd st r0 _ hok
        obtain ⟨h0, h80, hsum⟩ := hinv
        exact ih ⟨st.bp + r0.n, st.bytes_to_read - r0.n, recvInto st.buf st.bp r0⟩
          ⟨by show 0 ≤ st.bytes_to_read - r0.n; omega,
            by show st.bytes_to_read - r0.n ≤ BUFLEN; omega,
            by show st.bp + r0.n + (st.bytes_to_read - r0.n) = BUFLEN; omega⟩
          (fun o ho => hok o (List.mem_append_right _ ho)) fd1 off len hm
    · rw [loop_full fd st r0 rs h, after_trace] at hm hok
      simp only [List.cons_append, List.nil_append, List.mem_cons] at hm
      rcases hm with hm | hm | hm
      · simp at hm
      · simp at hm
      · exact ih ⟨st.bp, st.bytes_to_read, recvInto st.buf st.bp r0⟩ hinv
          (fun o ho => hok o (List.mem_append_right _ ho)) fd1 off len hm

/-- Every send comes right after a `recv` that filled all of `buf`, and carries
exactly the bytes of that `recv`. -/
theorem loop_send_after_full_recv (fd : Int) (rs : List RecvResult) :
    ∀ st : EchoState, loopInvariant st.bp st.bytes_to_read →
      (∀ o ∈ (ClearSocketLoop fd st rs).trace, recvHonoursLength o = true) →
      ∀ (pre post : List Obs) (fd1 : Int) (payload : List (Option Byte)),
        (ClearSocketLoop fd st rs).trace = pre ++ Obs.send fd1 payload :: post →
        ∃ (pre1 : List Obs) (bytes : List Byte),
          pre = pre1 ++ [Obs.recv fd 0 BUFLEN (.data bytes)] ∧ bytes.length = 80 ∧
          payload = bytes.map some ∧ fd1 = fd := by
  induction rs with
  | nil =>
    intro st _ _ pre post fd1 payload htr
    rw [loop_nil] at htr
    cases pre with
    | nil => simp at htr
    | cons x pre => simp at htr
  | cons r0 rs ih =>
    intro st hinv hok pre post fd1 payload htr
    rcases loop_cases r0 with h | ⟨h1, h2⟩ | h
    · rw [loop_stop fd st r0 rs h] at htr
      cases pre with
      | nil => simp at htr
      | cons x pre => simp at htr
    · rw [loop_short fd st r0 rs h2 h1, after_trace] at htr hok
      cases pre with
      | nil => simp at htr
      | cons x pre =>
        simp only [List.singleton_append, List.cons_append, List.cons.injEq] at htr
        have hn := head_recv_ok fd st r0 _ hok
        obtain ⟨h0, h80, hsum⟩ := hinv
        obtain ⟨pre1, bytes, hp, hb, hpay, hfd⟩ :=
          ih ⟨st.bp + r0.n, st.bytes_to_read - r0.n, recvInto st.buf st.bp r0⟩
            ⟨by show 0 ≤ st.bytes_to_read - r0.n; omega,
              by show st.bytes_to_read - r0.n ≤ BUFLEN; omega,
              by show st.bp + r0.n + (st.bytes_to_read - r0.n) = BUFLEN; omega⟩
            (fun o ho => hok o (List.mem_append_right _ ho)) pre post fd1 payload htr.2
        exact ⟨x :: pre1, bytes, by rw [hp]; rfl, hb, hpay, hfd⟩
    · rw [loop_full fd st r0 rs h, after_trace] at htr hok
      have hn := head_recv_ok fd st r0 _ hok
      obtain ⟨h0, h80, hsum⟩ := hinv
      have heq : r0.n = BUFLEN := by omega
      have hlen : st.bytes_to_read = BUFLEN := by omega
      have hbp : st.bp = 0 := by omega
      obtain ⟨bytes, rfl, hb⟩ := full_recv_is_data r0 heq
      cases pre with
      | nil => simp at htr
      | cons x pre =>
        cases pre with
        | nil =>
          simp only [List.cons_append, List.nil_append, List.cons.injEq, Obs.send.injEq] at htr
          obtain ⟨hx, ⟨hfd, hpay⟩, -⟩ := htr
          refine ⟨[], bytes, ?_, hb, ?_, hfd.symm⟩
          · rw [← hx, hbp, hlen]; rfl
          · rw [← hpay, hbp, recvInto_full _ bytes hb]
        | cons y pre =>
          simp only [List.cons_append, List.nil_append, List.cons.injEq] at htr
          obtain ⟨pre1, bytes1, hp, hb1, hpay, hfd⟩ :=
            ih ⟨st.bp, st.bytes_to_read, recvInto st.buf st.bp (.data bytes)⟩ ⟨h0, h80, hsum⟩
              (fun o ho => hok o (List.mem_append_right _ ho)) pre post fd1 payload htr.2.2
          exact ⟨x :: y :: pre1, bytes1, by rw [hp]; rfl, hb1, hpay, hfd⟩

/-- The initial values `bp = buf`, `bytes_to_read = BUFLEN` satisfy the invariant. -/
theorem loopInvariant_init : loopInvariant 0 BUFLEN := by
  unfold loopInvariant BUFLEN; omega

/-- Two runs whose answers agree up to a first answer that is not positive
perform the same actions before it, issue the same last `recv`, and return
`FALSE`. -/
theorem loop_terminator (fd : Int) (pre : List RecvResult) :
    ∀ (st : EchoState) (t1 t2 : RecvResult) (rest1 rest2 : List RecvResult),
      (∀ r ∈ pre, 0 < r.n) → t1.n ≤ 0 → t2.n ≤ 0 →
      ∃ (common : List Obs) (off len : Int),
        ClearSocketLoop fd st (pre ++ t1 :: rest1) =
          ⟨common ++ [.recv fd off len t1], .ret FALSE⟩ ∧
        ClearSocketLoop fd st (pre ++ t2 :: rest2) =
          ⟨common ++ [.recv fd off len t2], .ret FALSE⟩ := by
  induction pre with
  | nil =>
    intro st t1 t2 rest1 rest2 _ h1 h2
    exact ⟨[], st.bp, st.bytes_to_read, by simp [loop_stop fd st t1 rest1 h1],
      by simp [loop_stop fd st t2 rest2 h2]⟩
  | cons r pre ih =>
    intro st t1 t2 rest1 rest2 hpos h1 h2
    have hr : 0 < r.n := hpos r (by simp)
    have hpre : ∀ x ∈ pre, 0 < x.n := fun x hx => hpos x (by simp [hx])
    rcases loop_cases r with h | ⟨_, hlt⟩ | h
    · omega
    · obtain ⟨common, off, len, e1, e2⟩ :=
        ih ⟨st.bp + r.n, st.bytes_to_read - r.n, recvInto st.buf st.bp r⟩ t1 t2 rest1 rest2
          hpre h1 h2
      refine ⟨.recv fd st.bp st.bytes_to_read r :: common, off, len, ?_, ?_⟩
      · rw [List.cons_append, loop_short fd st r _ hlt hr, e1]; rfl
      · rw [List.cons_append, loop_short fd st r _ hlt hr, e2]; rfl
    · obtain ⟨common, off, len, e1, e2⟩ :=
        ih ⟨st.bp, st.bytes_to_read, recvInto st.buf st.bp r⟩ t1 t2 rest1 rest2 hpre h1 h2
      refine ⟨.recv fd st.bp st.bytes_to_read r ::
        .send fd ((recvInto st.buf st.bp r).take BUFLEN.toNat) :: common, off, len, ?_, ?_⟩
      · rw [List.cons_append, loop_full fd st r _ h, e1]; rfl
      · rw [List.cons_append, loop_full fd st r _ h, e2]; rfl

/-- Answers of between 1 and `BUFLEN - 1` bytes followed by an answer that is not
positive: nothing is sent and `FALSE` is returned. -/
theorem loop_partial_chunks (fd : Int) (chunks : List (List Byte)) :
    ∀ (st : EchoState) (t : RecvResult) (rest : List RecvResult),
      (∀ c ∈ chunks, c ≠ [] ∧ c.length < 80) → t.n ≤ 0 →
      sends (ClearSocketLoop fd st (chunks.map RecvResult.data ++ t :: rest)).trace = [] ∧
      (ClearSocketLoop fd st (chunks.map RecvResult.data ++ t :: rest)).res = .ret FALSE := by
  induction chunks with
  | nil =>
    intro st t rest _ ht
    simp [loop_stop fd st t rest ht, sends, Obs.sendOf]
  | cons c chunks ih =>
    intro st t rest hc ht
    obtain ⟨hne, hlt⟩ := hc c (by simp)
    have hpos : 0 < (RecvResult.data c).n := by
      have : 0 < c.length := List.length_pos.mpr hne
      simp only [RecvResult.n]; omega
    have hlt2 : (RecvResult.data c).n < BUFLEN := by
      simp only [RecvResult.n, BUFLEN]; omega
    obtain ⟨e1, e2⟩ := ih ⟨st.bp + (RecvResult.data c).n,
      st.bytes_to_read - (RecvResult.data c).n, recvInto st.buf st.bp (.data c)⟩ t rest
      (fun x hx => hc x (by simp [hx])) ht
    rw [List.map_cons, List.cons_append, loop_short fd st _ _ hlt2 hpos, after_trace,
      after_res, sends_append, e1, e2]
    simp [sends, Obs.sendOf]

/-- When `ClearSocket` returns `FALSE`, `handleData` performs its actions, closes
the descriptor and returns. -/
theorem handleData_of_ret (s : Server) (o : Oracle) (tr : List Obs)
    (h : ClearSocket (readEvent s s.i).fd o.recvs = ⟨tr, .ret FALSE⟩) :
    handleData s o =
      ⟨.read s.i :: tr ++ [.read s.i, .close (readEvent s s.i).fd], .ret s⟩ := by
  simp [handleData, h, Out.bind, Out.after, FALSE]

/-- A member of a list of chunks is no longer than their total length. -/
theorem chunk_le_total (chunks : List (List Byte)) (c : List Byte) (h : c ∈ chunks) :
    c.length ≤ (chunks.map List.length).sum := by
  induction chunks with
  | nil => simp at h
  | cons d chunks ih =>
    simp only [List.mem_cons] at h
    simp only [List.map_cons, List.sum_cons]
    rcases h with rfl | h
    · omega
    · have := ih h; omega

theorem out_eq {α : Type} (x : Out α) (r : Res α) (h : x.res = r) : x = ⟨x.trace, r⟩ := by
  cases x; simp_all

/-- Once fewer than `BUFLEN` bytes are requested, every later `recv` requests
fewer than `BUFLEN` bytes at an offset past the start of `buf`. -/
theorem loop_len_stays_small (fd : Int) (rs : List RecvResult) :
    ∀ st : EchoState, st.bytes_to_read < BUFLEN → 0 < st.bp →
      ∀ (fd1 off len : Int) (r : RecvResult),
        Obs.recv fd1 off len r ∈ (ClearSocketLoop fd st rs).trace → len < BUFLEN ∧ 0 < off := by
  induction rs with
  | nil => intro st _ _ fd1 off len r hm; simp [loop_nil] at hm
  | cons r0 rs ih =>
    intro st hlt hbp fd1 off len r hm
    rcases loop_cases r0 with h | ⟨h1, h2⟩ | h
    · rw [loop_stop fd st r0 rs h] at hm
      simp only [List.mem_singleton, Obs.recv.injEq] at hm
      obtain ⟨-, rfl, rfl, -⟩ := hm
      exact ⟨hlt, hbp⟩
    · rw [loop_short fd st r0 rs h2 h1, after_trace] at hm
      simp only [List.singleton_append, List.mem_cons, Obs.recv.injEq] at hm
      rcases hm with ⟨-, rfl, rfl, -⟩ | hm
      · exact ⟨hlt, hbp⟩
      · exact ih ⟨st.bp + r0.n, st.bytes_to_read - r0.n, recvInto st.buf st.bp r0⟩
          (by show st.bytes_to_read - r0.n < BUFLEN; omega)
          (by show 0 < st.bp + r0.n; omega) fd1 off len r hm
    · rw [loop_full fd st r0 rs h, after_trace] at hm
      simp only [List.cons_append, List.nil_append, List.mem_cons, Obs.recv.injEq] at hm
      rcases hm with ⟨-, rfl, rfl, -⟩ | hm | hm
      · exact ⟨hlt, hbp⟩
      · simp at hm
      · exact ih ⟨st.bp, st.bytes_to_read, recvInto st.buf st.bp r0⟩ hlt hbp fd1 off len r hm

/-- After an answer of between 1 and `BUFLEN - 1` bytes every later `recv`
requests fewer than `BUFLEN` bytes at an offset past the start of `buf`. -/
theorem loop_not_reset_after_short (fd : Int) (rs : List RecvResult) :
    ∀ (st : EchoState) (pre post : List Obs) (fd1 off len : Int) (r : RecvResult),
      st.bytes_to_read ≤ BUFLEN → 0 ≤ st.bp →
      (ClearSocketLoop fd st rs).trace = pre ++ Obs.recv fd1 off len r :: post →
      0 < r.n → r.n < BUFLEN →
      ∀ (fd2 off2 len2 : Int) (r2 : RecvResult),
        Obs.recv fd2 off2 len2 r2 ∈ post → len2 < BUFLEN ∧ 0 < off2 := by
  induction rs with
  | nil =>
    intro st pre post fd1 off len r _ _ htr _ _
    rw [loop_nil] at htr
    cases pre with
    | nil => simp at htr
    | cons x pre => simp at htr
  | cons r0 rs ih =>
    intro st pre post fd1 off len r hle hbp htr hpos hlt
    rcases loop_cases r0 with h | ⟨h1, h2⟩ | h
    · rw [loop_stop fd st r0 rs h] at htr
      cases pre with
      | nil =>
        simp only [List.nil_append, List.cons.injEq, Obs.recv.injEq] at htr
        obtain ⟨⟨-, -, -, rfl⟩, -⟩ := htr
        omega
      | cons x pre => simp at htr
    · rw [loop_short fd st r0 rs h2 h1, after_trace] at htr
      cases pre with
      | nil =>
        simp only [List.nil_append, List.singleton_append, List.cons.injEq] at htr
        rw [← htr.2]
        exact loop_len_stays_small fd rs _
          (by show st.bytes_to_read - r0.n < BUFLEN; omega) (by show 0 < st.bp + r0.n; omega)
      | cons x pre =>
        simp only [List.singleton_append, List.cons_append, List.cons.injEq] at htr
        exact ih ⟨st.bp + r0.n, st.bytes_to_read - r0.n, recvInto st.buf st.bp r0⟩
          pre post fd1 off len r
          (by show st.bytes_to_read - r0.n ≤ BUFLEN; omega) (by show 0 ≤ st.bp + r0.n; omega)
          htr.2 hpos hlt
    · rw [loop_full fd st r0 rs h, after_trace] at htr
      cases pre with
      | nil =>
        simp only [List.nil_append, List.cons_append, List.cons.injEq, Obs.recv.injEq] at htr
        obtain ⟨⟨-, -, -, rfl⟩, -⟩ := htr
        omega
      | cons x pre =>
        cases pre with
        | nil => simp at htr
        | cons y pre =>
          simp only [List.cons_append, List.nil_append, List.cons.injEq] at htr
          exact ih ⟨st.bp, st.bytes_to_read, recvInto st.buf st.bp r0⟩ pre post fd1 off len r
            hle hbp htr.2.2 hpos hlt

/-! ## Lemmas on the handlers -/

theorem reads_append (a b : List Obs) : reads (a ++ b) = reads a ++ reads b := by
  simp [reads]

theorem registrations_append (a b : List Obs) :
    registrations (a ++ b) = registrations a ++ registrations b := by
  simp [registrations]

theorem bind_trace_ret {α β : Type} (x : Out α) (f : α → Out β) (a : α) (h : x.res = .ret a) :
    x.bind f = ⟨x.trace ++ (f a).trace, (f a).res⟩ := by
  simp [Out.bind, h]

theorem bind_halt {α β : Type} (x : Out α) (f : α → Out β) (e : Halt) (h : x.res = .halt e) :
    x.bind f = ⟨x.trace, .halt e⟩ := by
  simp [Out.bind, h]

/-- The function `ClearSocket` reads no entry of `info.events`. -/
theorem loop_reads (fd : Int) (rs : List RecvResult) :
    ∀ st : EchoState, reads (ClearSocketLoop fd st rs).trace = [] := by
  induction rs with
  | nil => intro st; simp [loop_nil, reads, Obs.readOf]
  | cons r rs ih =>
    intro st
    rcases loop_cases r with h | ⟨h1, h2⟩ | h
    · simp [loop_stop fd st r rs h, reads, Obs.readOf]
    · rw [loop_short fd st r rs h2 h1, after_trace, reads_append, ih]
      simp [reads, Obs.readOf]
    · rw [loop_full fd st r rs h, after_trace, reads_append, ih]
      simp [reads, Obs.readOf]

/-- The function `ClearSocket` returns `FALSE` or waits for a `recv`. -/
theorem loop_res (fd : Int) (rs : List RecvResult) :
    ∀ st : EchoState, (ClearSocketLoop fd st rs).res = .ret FALSE ∨
      (ClearSocketLoop fd st rs).res = .halt .blocked := by
  induction rs with
  | nil => intro st; simp [loop_nil]
  | cons r rs ih =>
    intro st
    rcases loop_cases r with h | ⟨h1, h2⟩ | h
    · simp [loop_stop fd st r rs h]
    · rw [loop_short fd st r rs h2 h1, after_res]; exact ih _
    · rw [loop_full fd st r rs h, after_res]; exact ih _

theorem handleError_err (s : Server)
    (h : (readEvent s s.i).events &&& (EPOLLHUP ||| EPOLLERR) ≠ 0) :
    handleError s = ⟨[.read s.i, .fputs "epoll: EPOLLERR", .read s.i,
      .close (readEvent s s.i).fd], .ret (1, s)⟩ := by
  simp [handleError, h]

theorem handleError_in (s : Server)
    (h : ¬ (readEvent s s.i).events &&& (EPOLLHUP ||| EPOLLERR) ≠ 0)
    (hin : (readEvent s s.i).events &&& EPOLLIN ≠ 0) :
    handleError s = ⟨[.read s.i, .read s.i], .ret (0, s)⟩ := by
  unfold handleError
  rw [if_neg h, if_pos hin]

theorem handleError_abort (s : Server)
    (h : ¬ (readEvent s s.i).events &&& (EPOLLHUP ||| EPOLLERR) ≠ 0)
    (hin : ¬ (readEvent s s.i).events &&& EPOLLIN ≠ 0) :
    handleError s = ⟨[.read s.i, .read s.i, .assert_fail], .halt .abort⟩ := by
  unfold handleError
  rw [if_neg h, if_neg hin]

theorem handleConnection_other (s : Server) (o : Oracle)
    (h : (readEvent s s.i).fd ≠ s.fd_server) :
    handleConnection s o = ⟨[.read s.i], .ret (0, s)⟩ := by
  simp [handleConnection, h]

/-- On the listening socket `handleConnection` returns 1 or leaves through
`SystemFatal`; it changes at most `event.data.fd`, closes nothing, performs no
action of the echo path and reads `info.events` at the loop index only. -/
theorem handleConnection_server (s : Server) (o : Oracle)
    (h : (readEvent s s.i).fd = s.fd_server) :
    ((∃ s1, (handleConnection s o).res = .ret (1, s1) ∧ sameUpToEventFd s1 s) ∨
      (handleConnection s o).res = .halt (.exit EXIT_FAILURE)) ∧
    closes (handleConnection s o).trace = [] ∧
    reads (handleConnection s o).trace = [s.i] ∧
    (∀ x ∈ (handleConnection s o).trace, x.isEcho = false) := by
  unfold handleConnection
  simp only [h, if_true]
  split_ifs <;>
    simp [sameUpToEventFd, SystemFatal, Out.after, closes, reads, Obs.closeOf, Obs.readOf,
      Obs.isEcho]

theorem handleData_of_blocked (s : Server) (o : Oracle)
    (h : (ClearSocket (readEvent s s.i).fd o.recvs).res = .halt .blocked) :
    handleData s o = ⟨.read s.i :: (ClearSocket (readEvent s s.i).fd o.recvs).trace,
        .halt .blocked⟩ := by
  have h2 : ((ClearSocket (readEvent s s.i).fd o.recvs).after [.read s.i]).res =
      .halt .blocked := h
  unfold handleData
  rw [bind_halt _ _ _ h2]
  rfl

/-! ## Lemmas on the loop body -/

theorem loopBody_err (s : Server) (o : Oracle)
    (h : (readEvent s s.i).events &&& (EPOLLHUP ||| EPOLLERR) ≠ 0) :
    loopBody s o = ⟨[.read s.i, .fputs "epoll: EPOLLERR", .read s.i,
      .close (readEvent s s.i).fd], .ret s⟩ := by
  unfold loopBody
  rw [handleError_err s h]
  simp [Out.bind]

theorem loopBody_abort (s : Server) (o : Oracle)
    (h : ¬ (readEvent s s.i).events &&& (EPOLLHUP ||| EPOLLERR) ≠ 0)
    (hin : ¬ (readEvent s s.i).events &&& EPOLLIN ≠ 0) :
    loopBody s o = ⟨[.read s.i, .read s.i, .assert_fail], .halt .abort⟩ := by
  unfold loopBody
  rw [handleError_abort s h hin]
  simp [Out.bind]

theorem loopBody_data (s : Server) (o : Oracle)
    (h : ¬ (readEvent s s.i).events &&& (EPOLLHUP ||| EPOLLERR) ≠ 0)
    (hin : (readEvent s s.i).events &&& EPOLLIN ≠ 0)
    (hfd : (readEvent s s.i).fd ≠ s.fd_server) :
    loopBody s o = (handleData s o).after [.read s.i, .read s.i, .read s.i] := by
  unfold loopBody
  rw [handleError_in s h hin]
  simp [Out.bind, handleConnection_other s o hfd, Out.after]

theorem loopBody_accept (s : Server) (o : Oracle)
    (h : ¬ (readEvent s s.i).events &&& (EPOLLHUP ||| EPOLLERR) ≠ 0)
    (hin : (readEvent s s.i).events &&& EPOLLIN ≠ 0)
    (hfd : (readEvent s s.i).fd = s.fd_server) :
    (∃ s1, (handleConnection s o).res = .ret (1, s1) ∧ sameUpToEventFd s1 s ∧
      loopBody s o = ⟨[.read s.i, .read s.i] ++ (handleConnection s o).trace, .ret s1⟩) ∨
    ((handleConnection s o).res = .halt (.exit EXIT_FAILURE) ∧
      loopBody s o = ⟨[.read s.i, .read s.i] ++ (handleConnection s o).trace,
        .halt (.exit EXIT_FAILURE)⟩) := by
  rcases (handleConnection_server s o hfd).1 with ⟨s1, h1, hs⟩ | h1
  · left
    refine ⟨s1, h1, hs, ?_⟩
    unfold loopBody
    rw [handleError_in s h hin]
    simp [Out.bind, h1]
  · right
    refine ⟨h1, ?_⟩
    unfold loopBody
    rw [handleError_in s h hin]
    simp [Out.bind, h1]

theorem sameUpToEventFd_refl (s : Server) : sameUpToEventFd s s :=
  ⟨rfl, rfl, rfl, rfl, rfl⟩

theorem sameUpToEventFd_trans {s t u : Server} (h1 : sameUpToEventFd s t)
    (h2 : sameUpToEventFd t u) : sameUpToEventFd s u := by
  obtain ⟨a1, a2, a3, a4, a5⟩ := h1
  obtain ⟨b1, b2, b3, b4, b5⟩ := h2
  exact ⟨a1.trans b1, a2.trans b2, a3.trans b3, a4.trans b4, a5.trans b5⟩

theorem readEvent_congr {s t : Server} (h : sameUpToEventFd s t) :
    readEvent s s.i = readEvent t t.i := by
  obtain ⟨_, _, a3, _, a5⟩ := h
  simp [readEvent, a3, a5]

/-- The loop body reads `info.events` only at the loop index, returns a state
that differs at most in `event.data.fd`, and never runs out of budget. -/
theorem loopBody_frame (s : Server) (o : Oracle) :
    (∀ idx ∈ reads (loopBody s o).trace, idx = s.i) ∧
    (∀ s1, (loopBody s o).res = .ret s1 → sameUpToEventFd s1 s) ∧
    (loopBody s o).res ≠ .halt .fuel := by
  by_cases h : (readEvent s s.i).events &&& (EPOLLHUP ||| EPOLLERR) ≠ 0
  · rw [loopBody_err s o h]
    refine ⟨by simp [reads, Obs.readOf], ?_, by simp⟩
    intro s1 h1
    simp only [Res.ret.injEq] at h1
    rw [← h1]; exact sameUpToEventFd_refl s
  · by_cases hin : (readEvent s s.i).events &&& EPOLLIN ≠ 0
    · by_cases hfd : (readEvent s s.i).fd = s.fd_server
      · have hc := handleConnection_server s o hfd
        rcases loopBody_accept s o h hin hfd with ⟨s1, _, hs, e⟩ | ⟨_, e⟩
        · rw [e]
          refine ⟨?_, ?_, by simp⟩
          · show ∀ idx ∈ reads ([Obs.read s.i, Obs.read s.i] ++ (handleConnection s o).trace),
              idx = s.i
            rw [reads_append, hc.2.2.1]
            simp [reads, Obs.readOf]
          · intro s2 h2
            simp only [Res.ret.injEq] at h2
            rw [← h2]; exact hs
        · rw [e]
          refine ⟨?_, by simp, by simp⟩
          show ∀ idx ∈ reads ([Obs.read s.i, Obs.read s.i] ++ (handleConnection s o).trace),
            idx = s.i
          rw [reads_append, hc.2.2.1]
          simp [reads, Obs.readOf]
      · rw [loopBody_data s o h hin hfd]
        have hr := loop_reads (readEvent s s.i).fd o.recvs
          ⟨0, BUFLEN, List.replicate BUFLEN.toNat none⟩
        have hr2 : reads (ClearSocket (readEvent s s.i).fd o.recvs).trace = [] := hr
        rcases loop_res (readEvent s s.i).fd o.recvs
          ⟨0, BUFLEN, List.replicate BUFLEN.toNat none⟩ with hres | hres
        · rw [handleData_of_ret s o _ (out_eq _ _ hres)]
          refine ⟨?_, ?_, by simp [Out.after]⟩
          · simp only [Out.after, List.cons_append, List.nil_append]
            rw [show ∀ (a b c d : Obs) (l m : List Obs), a :: b :: c :: d :: (l ++ m) =
              [a, b, c, d] ++ l ++ m from by intros; simp]
            rw [reads_append, reads_append, hr2]
            simp [reads, Obs.readOf]
          · intro s1 h1
            simp only [Out.after, Res.ret.injEq] at h1
            rw [← h1]; exact sameUpToEventFd_refl s
        · rw [handleData_of_blocked s o hres]
          refine ⟨?_, by simp [Out.after], by simp [Out.after]⟩
          simp only [Out.after, List.cons_append, List.nil_append]
          rw [show ∀ (a b c d : Obs) (l : List Obs), a :: b :: c :: d :: l =
            [a, b, c, d] ++ l from by intros; simp]
          rw [reads_append, hr2]
          simp [reads, Obs.readOf]
    · rw [loopBody_abort s o h hin]
      exact ⟨by simp [reads, Obs.readOf], by simp, by simp⟩

/-- The function `handleConnection` does not look at `event.data.fd`. -/
theorem handleConnection_congr {s t : Server} (o : Oracle) (h : sameUpToEventFd s t) :
    (handleConnection s o).trace = (handleConnection t o).trace ∧
    ((∃ v s1 t1, (handleConnection s o).res = .ret (v, s1) ∧
        (handleConnection t o).res = .ret (v, t1)) ∨
     (∃ e, (handleConnection s o).res = .halt e ∧ (handleConnection t o).res = .halt e)) := by
  obtain ⟨fs, ep, evs, ⟨m, f⟩, i⟩ := s
  obtain ⟨fs1, ep1, evs1, ⟨m1, f1⟩, i1⟩ := t
  simp only [sameUpToEventFd] at h
  obtain ⟨rfl, rfl, rfl, rfl, rfl⟩ := h
  unfold handleConnection readEvent
  simp only []
  split_ifs <;> simp [SystemFatal, Out.after]

/-- The loop body does not look at `event.data.fd`. -/
theorem loopBody_congr {s t : Server} (o : Oracle) (hst : sameUpToEventFd s t) :
    (loopBody s o).trace = (loopBody t o).trace ∧
    ((∃ s1 t1, (loopBody s o).res = .ret s1 ∧ (loopBody t o).res = .ret t1) ∨
     (∃ e, (loopBody s o).res = .halt e ∧ (loopBody t o).res = .halt e)) := by
  have hre := readEvent_congr hst
  have hi : s.i = t.i := hst.2.2.2.2
  have hfs : s.fd_server = t.fd_server := hst.1
  by_cases h : (readEvent s s.i).events &&& (EPOLLHUP ||| EPOLLERR) ≠ 0
  · have ht := h; rw [hre] at ht
    rw [loopBody_err s o h, loopBody_err t o ht, hre, hi]
    exact ⟨rfl, Or.inl ⟨s, t, rfl, rfl⟩⟩
  · have ht := h; rw [hre] at ht
    by_cases hin : (readEvent s s.i).events &&& EPOLLIN ≠ 0
    · have hint := hin; rw [hre] at hint
      by_cases hfd : (readEvent s s.i).fd = s.fd_server
      · have hfdt := hfd; rw [hre, hfs] at hfdt
        obtain ⟨htr, hres⟩ := handleConnection_congr o hst
        rcases loopBody_accept s o h hin hfd with ⟨s1, r1, _, e1⟩ | ⟨r1, e1⟩ <;>
          rcases loopBody_accept t o ht hint hfdt with ⟨t1, r2, _, e2⟩ | ⟨r2, e2⟩
        · rw [e1, e2, htr, hi]
          exact ⟨rfl, Or.inl ⟨s1, t1, rfl, rfl⟩⟩
        · rcases hres with ⟨v, a, b, ha, hb⟩ | ⟨e, ha, hb⟩
          · rw [r2] at hb; simp at hb
          · rw [r1] at ha; simp at ha
        · rcases hres with ⟨v, a, b, ha, hb⟩ | ⟨e, ha, hb⟩
          · rw [r1] at ha; simp at ha
          · rw [r2] at hb; simp at hb
        · rw [e1, e2, htr, hi]
          exact ⟨rfl, Or.inr ⟨_, rfl, rfl⟩⟩
      · have hfdt := hfd; rw [hre, hfs] at hfdt
        rw [loopBody_data s o h hin hfd, loopBody_data t o ht hint hfdt]
        rcases loop_res (readEvent s s.i).fd o.recvs
          ⟨0, BUFLEN, List.replicate BUFLEN.toNat none⟩ with hres | hres
        · have hres2 := hres; rw [hre] at hres2
          rw [handleData_of_ret s o _ (out_eq _ _ hres),
            handleData_of_ret t o _ (out_eq _ _ hres2), hre, hi]
          exact ⟨rfl, Or.inl ⟨s, t, rfl, rfl⟩⟩
        · have hres2 := hres; rw [hre] at hres2
          rw [handleData_of_blocked s o hres, handleData_of_blocked t o hres2, hre, hi]
          exact ⟨rfl, Or.inr ⟨_, rfl, rfl⟩⟩
    · have hint := hin; rw [hre] at hint
      rw [loopBody_abort s o h hin, loopBody_abort t o ht hint, hi]
      exact ⟨rfl, Or.inr ⟨_, rfl, rfl⟩⟩

/-! ## Lemmas on the for loop -/

/-- From index `j0` with a budget of `k` passes, where `j0 + k = num_fds`: the
loop runs the bodies of the indices `j0, j0 + 1, ...` in this order, up to and
including the first that does not return; the budget suffices; every read of
`info.events` is at an index from `j0` to `num_fds - 1`. -/
theorem forLoop_serviced (num_fds : Int) (oracle : Int → Oracle) :
    ∀ (k : Nat) (s s0 : Server) (j0 : Int),
      sameUpToEventFd s { s0 with i := j0 } → j0 + k = num_fds →
      (forLoop num_fds oracle k s).trace =
        servicedTraces ((List.range k).map fun j : Nat =>
          loopBody { s0 with i := j0 + (j : Int) } (oracle (j0 + (j : Int)))) ∧
      (forLoop num_fds oracle k s).res ≠ .halt .fuel ∧
      (∀ idx ∈ reads (forLoop num_fds oracle k s).trace, j0 ≤ idx ∧ idx < num_fds) := by
  intro k
  induction k with
  | zero =>
    intro s s0 j0 hs hk
    have hi : s.i = j0 := hs.2.2.2.2
    have hnot : ¬ s.i < num_fds := by
      rw [hi]; simp only [Nat.cast_zero, add_zero] at hk; omega
    simp [forLoop, hnot, servicedTraces, reads]
  | succ k ih =>
    intro s s0 j0 hs hk
    have hi : s.i = j0 := hs.2.2.2.2
    have hlt : s.i < num_fds := by
      rw [hi]; push_cast at hk; omega
    obtain ⟨hrd, hframe, hnf⟩ := loopBody_frame s (oracle s.i)
    obtain ⟨htr, hres⟩ := loopBody_congr (oracle s.i) hs
    have hmap : (List.range (k + 1)).map (fun j : Nat =>
          loopBody { s0 with i := j0 + (j : Int) } (oracle (j0 + (j : Int)))) =
        loopBody { s0 with i := j0 } (oracle j0) ::
          (List.range k).map (fun j : Nat =>
            loopBody { s0 with i := (j0 + 1) + (j : Int) } (oracle ((j0 + 1) + (j : Int)))) := by
      rw [List.range_succ_eq_map, List.map_cons, List.map_map]
      simp only [Nat.cast_zero, add_zero, List.cons.injEq, true_and]
      apply List.map_congr_left
      intro j _
      simp only [Function.comp, Nat.succ_eq_add_one, Nat.cast_add, Nat.cast_one]
      rw [show j0 + ((j : Int) + 1) = j0 + 1 + (j : Int) from by ring]
    rw [hmap]
    have hunf : forLoop num_fds oracle (k + 1) s =
        (loopBody s (oracle s.i)).bind fun s1 =>
          forLoop num_fds oracle k { s1 with i := s1.i + 1 } := by
      simp [forLoop, hlt]
    rw [hunf]
    rw [hi] at htr hres hrd hnf hframe
    rw [hi]
    rcases hres with ⟨s1, t1, r1, r2⟩ | ⟨e, r1, r2⟩
    · have hs1 : sameUpToEventFd ({ s1 with i := s1.i + 1 } : Server)
          { s0 with i := j0 + 1 } := by
        obtain ⟨a1, a2, a3, a4, a5⟩ := sameUpToEventFd_trans (hframe s1 r1) hs
        exact ⟨a1, a2, a3, a4, by simp only at a5 ⊢; omega⟩
      obtain ⟨ih1, ih2, ih3⟩ := ih { s1 with i := s1.i + 1 } s0 (j0 + 1) hs1
        (by push_cast at hk; omega)
      rw [bind_trace_ret _ _ s1 r1]
      refine ⟨?_, ih2, ?_⟩
      · simp only [servicedTraces, r2]
        rw [ih1, htr]
      · intro idx hidx
        simp only [reads_append, List.mem_append] at hidx
        rcases hidx with hidx | hidx
        · have := hrd idx hidx
          rw [this]; omega
        · have := ih3 idx hidx
          omega
    · rw [bind_halt _ _ e r1]
      refine ⟨?_, ?_, ?_⟩
      · simp only [servicedTraces, r2]
        exact htr
      · intro hc
        simp only [Res.halt.injEq] at hc
        rw [hc] at r1
        exact hnf r1
      · intro idx hidx
        have := hrd idx hidx
        rw [this]; omega

/-- One pass of `while (TRUE)` with a count that is not negative. -/
theorem iteration_serviced (s : Server) (num_fds : Int) (ready : List EpollEvent)
    (oracle : Int → Oracle) (h : 0 ≤ num_fds) :
    (iteration s num_fds ready oracle).trace =
      Obs.epoll_wait s.epoll_fd num_fds ::
        servicedTraces ((List.range num_fds.toNat).map fun j : Nat =>
          loopBody { s with events := ready ++ s.events.drop ready.length, i := (j : Int) }
            (oracle (j : Int))) ∧
    (iteration s num_fds ready oracle).res ≠ .halt .fuel ∧
    (∀ idx ∈ reads (iteration s num_fds ready oracle).trace, 0 ≤ idx ∧ idx < num_fds) := by
  have hneg : ¬ num_fds < 0 := by omega
  obtain ⟨h1, h2, h3⟩ := forLoop_serviced num_fds oracle num_fds.toNat
    { s with events := ready ++ s.events.drop ready.length, i := 0 }
    { s with events := ready ++ s.events.drop ready.length } 0
    (sameUpToEventFd_refl _) (by rw [Int.toNat_of_nonneg h]; omega)
  simp only [zero_add] at h1
  have hit : iteration s num_fds ready oracle =
      (forLoop num_fds oracle num_fds.toNat
        { s with events := ready ++ s.events.drop ready.length, i := 0 }).after
        [.epoll_wait s.epoll_fd num_fds] := by
    simp [iteration, hneg]
  rw [hit, after_trace, after_res, h1]
  refine ⟨rfl, h2, ?_⟩
  intro idx hidx
  rw [← h1, reads_append] at hidx
  simp only [reads, Obs.readOf, List.filterMap_cons, List.filterMap_nil, List.nil_append]
    at hidx
  exact h3 idx hidx

/-- A negative count is fatal before any entry is read. -/
theorem iteration_negative (s : Server) (num_fds : Int) (ready : List EpollEvent)
    (oracle : Int → Oracle) (h : num_fds < 0) :
    iteration s num_fds ready oracle =
      ⟨[.epoll_wait s.epoll_fd num_fds, .perror "Error in epoll_wait!", .exit EXIT_FAILURE],
        .halt (.exit EXIT_FAILURE)⟩ := by
  simp [iteration, h, SystemFatal, Out.after]

/-- The loop body closes the listening socket exactly when the entry is the
listening socket and carries `EPOLLHUP` or `EPOLLERR`. -/
theorem loopBody_closes_server (s : Server) (o : Oracle) :
    s.fd_server ∈ closes (loopBody s o).trace ↔
      ((readEvent s s.i).fd = s.fd_server ∧
        (readEvent s s.i).events &&& (EPOLLHUP ||| EPOLLERR) ≠ 0) := by
  by_cases h : (readEvent s s.i).events &&& (EPOLLHUP ||| EPOLLERR) ≠ 0
  · rw [loopBody_err s o h]
    simp only [closes, Obs.closeOf, List.filterMap_cons, List.filterMap_nil,
      List.mem_singleton]
    constructor
    · intro e; exact ⟨e.symm, h⟩
    · intro e; exact e.1.symm
  · have hfalse : ¬ ((readEvent s s.i).fd = s.fd_server ∧
        (readEvent s s.i).events &&& (EPOLLHUP ||| EPOLLERR) ≠ 0) := fun e => h e.2
    rw [iff_false_right hfalse]
    by_cases hin : (readEvent s s.i).events &&& EPOLLIN ≠ 0
    · by_cases hfd : (readEvent s s.i).fd = s.fd_server
      · have hc := (handleConnection_server s o hfd).2.1
        rcases loopBody_accept s o h hin hfd with ⟨s1, _, _, e⟩ | ⟨_, e⟩ <;>
        · rw [e]
          show s.fd_server ∉ closes ([Obs.read s.i, Obs.read s.i] ++ (handleConnection s o).trace)
          rw [closes_append, hc]
          simp [closes, Obs.closeOf]
      · rw [loopBody_data s o h hin hfd]
        have hcl : List.filterMap Obs.closeOf
            (ClearSocket (readEvent s s.i).fd o.recvs).trace = [] := loop_closes _ _ _
        rcases loop_res (readEvent s s.i).fd o.recvs
          ⟨0, BUFLEN, List.replicate BUFLEN.toNat none⟩ with hres | hres
        · rw [handleData_of_ret s o _ (out_eq _ _ hres)]
          simp only [Out.after, closes, Obs.closeOf, List.filterMap_cons, List.filterMap_nil,
            List.filterMap_append, List.cons_append, List.nil_append, hcl,
            List.mem_singleton]
          exact fun e => hfd e.symm
        · rw [handleData_of_blocked s o hres]
          simp only [Out.after, closes, Obs.closeOf, List.filterMap_cons, List.cons_append,
            List.nil_append, hcl, List.not_mem_nil, not_false_eq_true]
    · rw [loopBody_abort s o h hin]
      simp [closes, Obs.closeOf]

/-! ## Lemmas on registration -/

/-- What a returning `handleConnection` changed and registered. -/
theorem handleConnection_registers (s : Server) (o : Oracle) (v : Int) (s1 : Server)
    (h : (handleConnection s o).res = .ret (v, s1)) :
    s1.event.events = s.event.events ∧ s1.fd_server = s.fd_server ∧
    s1.epoll_fd = s.epoll_fd ∧ s1.events = s.events ∧ s1.i = s.i ∧
    registrations (handleConnection s o).trace =
      (if (readEvent s s.i).fd = s.fd_server ∧ o.accept_ret ≠ -1 then
        [(s.epoll_fd, o.accept_ret, ⟨s.event.events, o.accept_ret⟩)] else []) := by
  unfold handleConnection at h ⊢
  split_ifs at h ⊢ <;>
    simp_all [SystemFatal, Out.after, registrations, Obs.addOf] <;>
    (obtain ⟨-, rfl⟩ := h; simp)

/-- What a returning `setupFD` leaves and registers. -/
theorem setupFD_registers (s0 : Server) (listen_ret create_ret ctl_ret : Int)
    (tr : List Obs) (s1 : Server)
    (h : setupFD s0 listen_ret create_ret ctl_ret = ⟨tr, .ret s1⟩) :
    s1 = { s0 with epoll_fd := create_ret, event := ⟨INTEREST, s0.fd_server⟩ } ∧
    registrations tr = [(create_ret, s0.fd_server, ⟨INTEREST, s0.fd_server⟩)] := by
  unfold setupFD at h
  by_cases h1 : listen_ret = -1
  · rw [if_pos h1] at h
    simp [SystemFatal, Out.after] at h
  · rw [if_neg h1] at h
    by_cases h2 : create_ret = -1
    · simp only [h2, if_true] at h
      simp [SystemFatal, Out.after] at h
    · simp only [h2, if_false] at h
      by_cases h3 : ctl_ret = -1
      · rw [if_pos h3] at h
        simp [SystemFatal, Out.after] at h
      · rw [if_neg h3] at h
        simp only [Out.mk.injEq, Res.ret.injEq] at h
        obtain ⟨rfl, rfl⟩ := h
        exact ⟨rfl, rfl⟩

/-- Returning calls of `handleConnection` keep the interest mask, the listening
descriptor and the epoll descriptor, and register exactly the accepted
descriptors, each with the mask of `event`. -/
theorem connCalls_registers (calls : List (Int × List EpollEvent × Oracle)) :
    ∀ (s : Server) (tr : List Obs) (sF : Server), connCalls s calls = ⟨tr, .ret sF⟩ →
      sF.event.events = s.event.events ∧ sF.fd_server = s.fd_server ∧
      sF.epoll_fd = s.epoll_fd ∧
      registrations tr = calls.filterMap fun call =>
        (acceptedBy s.fd_server call).map fun fd =>
          (s.epoll_fd, fd, (⟨s.event.events, fd⟩ : EpollEvent)) := by
  induction calls with
  | nil =>
    intro s tr sF h
    simp only [connCalls, Out.mk.injEq, Res.ret.injEq] at h
    obtain ⟨rfl, rfl⟩ := h
    simp [registrations]
  | cons c calls ih =>
    intro s tr sF h
    unfold connCalls at h
    cases hres : (handleConnection { s with i := c.1, events := c.2.1 } c.2.2).res with
    | halt e =>
      rw [bind_halt _ _ e hres] at h
      simp at h
    | ret r =>
      obtain ⟨v, s1⟩ := r
      rw [bind_trace_ret _ _ (v, s1) hres] at h
      simp only [Out.mk.injEq] at h
      obtain ⟨htr, hfin⟩ := h
      obtain ⟨a1, a2, a3, -, -, a6⟩ :=
        handleConnection_registers { s with i := c.1, events := c.2.1 } c.2.2 v s1 hres
      obtain ⟨b1, b2, b3, b4⟩ := ih s1 _ sF (out_eq _ _ hfin)
      simp only at a1 a2 a3 a6
      refine ⟨b1.trans a1, b2.trans a2, b3.trans a3, ?_⟩
      rw [← htr, registrations_append, b4, a6, a1, a2, a3, List.filterMap_cons]
      by_cases hacc : (c.2.1.getD c.1.toNat default).fd = s.fd_server ∧ c.2.2.accept_ret ≠ -1
      · have h1 : acceptedBy s.fd_server c = some c.2.2.accept_ret := by
          simp only [acceptedBy]; rw [if_pos hacc]
        have h2 : (readEvent { s with i := c.1, events := c.2.1 } c.1).fd = s.fd_server ∧
            c.2.2.accept_ret ≠ -1 := hacc
        rw [h1, if_pos h2]
        rfl
      · have h1 : acceptedBy s.fd_server c = none := by
          simp only [acceptedBy]; rw [if_neg hacc]
        have h2 : ¬ ((readEvent { s with i := c.1, events := c.2.1 } c.1).fd = s.fd_server ∧
            c.2.2.accept_ret ≠ -1) := hacc
        rw [h1, if_neg h2]
        rfl

theorem handleError_keeps_state (s : Server) (v : Int) (s1 : Server)
    (h : (handleError s).res = .ret (v, s1)) : s1 = s := by
  unfold handleError at h
  split_ifs at h <;> simp_all

theorem handleData_keeps_state (s : Server) (o : Oracle) (s1 : Server)
    (h : (handleData s o).res = .ret s1) : s1 = s := by
  rcases loop_res (readEvent s s.i).fd o.recvs
      ⟨0, BUFLEN, List.replicate BUFLEN.toNat none⟩ with hres | hres
  · rw [handleData_of_ret s o _ (out_eq _ _ hres)] at h
    simp only [Res.ret.injEq] at h
    exact h.symm
  · rw [handleData_of_blocked s o hres] at h
    simp at h

theorem accepts_append (a b : List Obs) : accepts (a ++ b) = accepts a ++ accepts b := by
  simp [accepts]

/-- On the listening socket `handleConnection` calls `accept` exactly once. -/
theorem handleConnection_accepts (s : Server) (o : Oracle)
    (h : (readEvent s s.i).fd = s.fd_server) :
    accepts (handleConnection s o).trace = [(s.fd_server, o.accept_ret)] := by
  unfold handleConnection
  simp only [h, if_true]
  split_ifs <;> simp [SystemFatal, Out.after, accepts, Obs.acceptOf]

/-! ## The claims -/

/-- C1, evaluated at the failing input: eighty bytes that arrive as 40 + 40
followed by end of stream.  `ClearSocket` calls `recv` three times (the third
asks for 0 bytes at offset 80), sends nothing and returns `FALSE`, where the
claim promises one send of the eighty bytes. -/
theorem C1_split_block_is_not_echoed :
    ClearSocket 5 splitReads =
      ⟨[.recv 5 0 80 (.data (block 1 40)), .recv 5 40 40 (.data (block 2 40)),
        .recv 5 80 0 (.data [])], .ret FALSE⟩ ∧
    sends (ClearSocket 5 splitReads).trace = [] := by
  decide

/-- C2: two runs of `ClearSocket` on the same descriptor whose answers agree in
a sequence `pre` of positive results and then end, one with `recv` returning 0
and the other with `recv` returning -1 (whatever `errno`), perform the same
actions up to the answer of the last `recv`, hence the same sends, and both
return `FALSE`; in both cases `handleData` returns after closing the
descriptor, once. -/
theorem C2_negative_read_treated_as_zero (s : Server) (o1 o2 : Oracle)
    (pre rest1 rest2 : List RecvResult) (e : Int)
    (hpre : ∀ r ∈ pre, 0 < r.n)
    (h1 : o1.recvs = pre ++ RecvResult.data [] :: rest1)
    (h2 : o2.recvs = pre ++ RecvResult.fail e :: rest2) :
    (∃ (common : List Obs) (off len : Int),
      ClearSocket (readEvent s s.i).fd o1.recvs =
        ⟨common ++ [.recv (readEvent s s.i).fd off len (.data [])], .ret FALSE⟩ ∧
      ClearSocket (readEvent s s.i).fd o2.recvs =
        ⟨common ++ [.recv (readEvent s s.i).fd off len (.fail e)], .ret FALSE⟩) ∧
    sends (ClearSocket (readEvent s s.i).fd o1.recvs).trace =
      sends (ClearSocket (readEvent s s.i).fd o2.recvs).trace ∧
    (handleData s o1).res = .ret s ∧ (handleData s o2).res = .ret s ∧
    closes (handleData s o1).trace = [(readEvent s s.i).fd] ∧
    closes (handleData s o2).trace = [(readEvent s s.i).fd] ∧
    sends (handleData s o1).trace = sends (handleData s o2).trace := by
  obtain ⟨common, off, len, e1, e2⟩ := loop_terminator (readEvent s s.i).fd pre
    ⟨0, BUFLEN, List.replicate BUFLEN.toNat none⟩ (.data []) (.fail e) rest1 rest2 hpre
    (by simp [RecvResult.n]) (by simp [RecvResult.n])
  have c1 : ClearSocket (readEvent s s.i).fd o1.recvs =
      ⟨common ++ [.recv (readEvent s s.i).fd off len (.data [])], .ret FALSE⟩ := by
    rw [h1]; exact e1
  have c2 : ClearSocket (readEvent s s.i).fd o2.recvs =
      ⟨common ++ [.recv (readEvent s s.i).fd off len (.fail e)], .ret FALSE⟩ := by
    rw [h2]; exact e2
  have hcl : List.filterMap Obs.closeOf common = [] := by
    have h := loop_closes (readEvent s s.i).fd o1.recvs
      ⟨0, BUFLEN, List.replicate BUFLEN.toNat none⟩
    have h3 : closes (ClearSocket (readEvent s s.i).fd o1.recvs).trace = [] := h
    rw [c1] at h3
    simpa [closes, Obs.closeOf] using h3
  refine ⟨⟨common, off, len, c1, c2⟩, ?_, ?_, ?_, ?_, ?_, ?_⟩
  · rw [c1, c2]; simp [sends, Obs.sendOf]
  · rw [handleData_of_ret s o1 _ c1]
  · rw [handleData_of_ret s o2 _ c2]
  · rw [handleData_of_ret s o1 _ c1]; simp [closes, Obs.closeOf, hcl]
  · rw [handleData_of_ret s o2 _ c2]; simp [closes, Obs.closeOf, hcl]
  · rw [handleData_of_ret s o1 _ c1, handleData_of_ret s o2 _ c2]; simp [sends, Obs.sendOf]

/-- C2 at a concrete input: a whole block and three bytes, then `recv`
returning 0 in one run and -1 with `EAGAIN` in the other. -/
theorem C2_negative_read_treated_as_zero_witness :
    (∀ r ∈ [RecvResult.data (block 1 80), RecvResult.data (block 2 3)], 0 < r.n) ∧
    sends (handleData sampleServer
        (sampleOracle [.data (block 1 80), .data (block 2 3), .data []])).trace =
      sends (handleData sampleServer
        (sampleOracle [.data (block 1 80), .data (block 2 3), .fail 11])).trace ∧
    closes (handleData sampleServer
        (sampleOracle [.data (block 1 80), .data (block 2 3), .fail 11])).trace = [7] :=
  ⟨by decide,
    (C2_negative_read_treated_as_zero sampleServer
      (sampleOracle [.data (block 1 80), .data (block 2 3), .data []])
      (sampleOracle [.data (block 1 80), .data (block 2 3), .fail 11])
      [.data (block 1 80), .data (block 2 3)] [] [] 11 (by decide) rfl rfl).2.2.2.2.2.2,
    (C2_negative_read_treated_as_zero sampleServer
      (sampleOracle [.data (block 1 80), .data (block 2 3), .data []])
      (sampleOracle [.data (block 1 80), .data (block 2 3), .fail 11])
      [.data (block 1 80), .data (block 2 3)] [] [] 11 (by decide) rfl rfl).2.2.2.2.2.1⟩

/-- C3: when the reads deliver `m` bytes, `0 < m < 80`, in one or several `recv`
calls (each returning at least one byte) and the next `recv` returns 0, one
call of `handleData` sends nothing, closes the descriptor exactly once (and
closes nothing else) and returns. -/
theorem C3_partial_block_then_end_of_stream (s : Server) (o : Oracle) (m : Nat)
    (chunks : List (List Byte)) (rest : List RecvResult)
    (hm0 : 0 < m) (hm80 : m < 80)
    (hne : ∀ c ∈ chunks, c ≠ [])
    (hsum : (chunks.map List.length).sum = m)
    (ho : o.recvs = chunks.map RecvResult.data ++ RecvResult.data [] :: rest) :
    sends (handleData s o).trace = [] ∧
    closes (handleData s o).trace = [(readEvent s s.i).fd] ∧
    (handleData s o).res = .ret s := by
  have hch : ∀ c ∈ chunks, c ≠ [] ∧ c.length < 80 := fun c hc =>
    ⟨hne c hc, by have := chunk_le_total chunks c hc; omega⟩
  obtain ⟨hs, hr⟩ := loop_partial_chunks (readEvent s s.i).fd chunks
    ⟨0, BUFLEN, List.replicate BUFLEN.toNat none⟩ (.data []) rest hch (by simp [RecvResult.n])
  rw [← ho] at hs hr
  have hs2 : List.filterMap Obs.sendOf (ClearSocket (readEvent s s.i).fd o.recvs).trace = [] :=
    hs
  have hcl : List.filterMap Obs.closeOf (ClearSocket (readEvent s s.i).fd o.recvs).trace = [] :=
    loop_closes _ _ _
  rw [handleData_of_ret s o _ (out_eq _ _ hr)]
  simp [sends, closes, Obs.sendOf, Obs.closeOf, hs2, hcl]

/-- C3 at a concrete input: five bytes delivered as 2 + 3, then end of stream. -/
theorem C3_partial_block_then_end_of_stream_witness :
    (0 < 5 ∧ 5 < 80) ∧
    sends (handleData sampleServer
      (sampleOracle [.data (block 1 2), .data (block 2 3), .data []])).trace = [] ∧
    closes (handleData sampleServer
      (sampleOracle [.data (block 1 2), .data (block 2 3), .data []])).trace = [7] :=
  ⟨by decide,
    (C3_partial_block_then_end_of_stream sampleServer
      (sampleOracle [.data (block 1 2), .data (block 2 3), .data []]) 5
      [block 1 2, block 2 3] [] (by decide) (by decide) (by decide) (by decide) rfl).1,
    (C3_partial_block_then_end_of_stream sampleServer
      (sampleOracle [.data (block 1 2), .data (block 2 3), .data []]) 5
      [block 1 2, block 2 3] [] (by decide) (by decide) (by decide) (by decide) rfl).2.1⟩

/-- C9: in a run of `ClearSocket` in which every `recv` returns at most the
length it was given, the sends are, in order, exactly the leading answers of
exactly `BUFLEN` bytes, each send carrying the bytes of its `recv`; so the
number of sends is the number of these leading answers; and after an answer of
between 1 and 79 bytes nothing is sent any more, every later `recv` being
called with fewer than `BUFLEN` bytes at an offset past the start of `buf`
(`bp` and `bytes_to_read` are not reset). -/
theorem C9_sends_are_the_leading_full_reads (fd : Int) (rs : List RecvResult)
    (hok : ∀ o ∈ (ClearSocket fd rs).trace, recvHonoursLength o = true) :
    sends (ClearSocket fd rs).trace =
      (rs.takeWhile fun r => decide (r.n = BUFLEN)).map (fun r => (fd, r.bytes.map some)) ∧
    (sends (ClearSocket fd rs).trace).length =
      (rs.takeWhile fun r => decide (r.n = BUFLEN)).length ∧
    (∀ (pre post : List Obs) (fd1 off len : Int) (r : RecvResult),
      (ClearSocket fd rs).trace = pre ++ Obs.recv fd1 off len r :: post →
      0 < r.n → r.n < BUFLEN →
      sends post = [] ∧
      ∀ (fd2 off2 len2 : Int) (r2 : RecvResult),
        Obs.recv fd2 off2 len2 r2 ∈ post → len2 < BUFLEN ∧ 0 < off2) := by
  have h1 := loop_sends_fresh fd rs ⟨0, BUFLEN, List.replicate BUFLEN.toNat none⟩ rfl rfl hok
  refine ⟨h1, ?_, ?_⟩
  · have h2 : sends (ClearSocket fd rs).trace = _ := h1
    rw [h2, List.length_map]
  · intro pre post fd1 off len r htr hpos hlt
    exact ⟨loop_no_send_after_short fd rs ⟨0, BUFLEN, List.replicate BUFLEN.toNat none⟩
        pre post fd1 off len r (le_refl _) hok htr hpos hlt,
      loop_not_reset_after_short fd rs ⟨0, BUFLEN, List.replicate BUFLEN.toNat none⟩
        pre post fd1 off len r (le_refl _) (le_refl _) htr hpos hlt⟩

/-- C9 at a concrete input: two whole blocks, three bytes, a failing `recv`:
two sends, the two blocks. -/
theorem C9_sends_are_the_leading_full_reads_witness :
    (∀ o ∈ (ClearSocket 5 wholeThenPartialReads).trace, recvHonoursLength o = true) ∧
    sends (ClearSocket 5 wholeThenPartialReads).trace =
      (wholeThenPartialReads.takeWhile fun r => decide (r.n = BUFLEN)).map
        (fun r => (5, r.bytes.map some)) ∧
    (sends (ClearSocket 5 wholeThenPartialReads).trace).length = 2 :=
  ⟨by decide,
    (C9_sends_are_the_leading_full_reads 5 wholeThenPartialReads (by decide)).1,
    by decide⟩

/-- C10: in a run of `ClearSocket` in which every `recv` returns at most the
length it was given, every `recv` call (answered or not) is on the descriptor of
the run with `0 <= bytes_to_read <= 80` and `(bp - buf) + bytes_to_read = 80`, and
the bytes it stores lie inside `buf`; every send is on the same descriptor, comes
immediately after a `recv` at offset 0 with length 80 that delivered eighty
bytes, and its payload is exactly these eighty bytes (all cells written by that
`recv`). -/
theorem C10_buffer_bounds_and_sent_bytes (fd : Int) (rs : List RecvResult)
    (hok : ∀ o ∈ (ClearSocket fd rs).trace, recvHonoursLength o = true) :
    (∀ (fd1 off len : Int) (r : RecvResult),
      Obs.recv fd1 off len r ∈ (ClearSocket fd rs).trace →
      fd1 = fd ∧ loopInvariant off len ∧ 0 ≤ off ∧ (0 < r.n → off + r.n ≤ BUFLEN)) ∧
    (∀ (fd1 off len : Int),
      Obs.blocked fd1 off len ∈ (ClearSocket fd rs).trace →
      fd1 = fd ∧ loopInvariant off len) ∧
    (∀ (pre post : List Obs) (fd1 : Int) (payload : List (Option Byte)),
      (ClearSocket fd rs).trace = pre ++ Obs.send fd1 payload :: post →
      ∃ (pre1 : List Obs) (bytes : List Byte),
        pre = pre1 ++ [Obs.recv fd 0 BUFLEN (.data bytes)] ∧ bytes.length = 80 ∧
        payload = bytes.map some ∧ fd1 = fd) :=
  ⟨loop_recv_invariant fd rs ⟨0, BUFLEN, List.replicate BUFLEN.toNat none⟩
      loopInvariant_init hok,
    loop_blocked_invariant fd rs ⟨0, BUFLEN, List.replicate BUFLEN.toNat none⟩
      loopInvariant_init hok,
    loop_send_after_full_recv fd rs ⟨0, BUFLEN, List.replicate BUFLEN.toNat none⟩
      loopInvariant_init hok⟩

/-- C10 at a concrete input: the first send of the run on two whole blocks,
three bytes and a failing `recv` comes right after the first `recv`. -/
theorem C10_buffer_bounds_and_sent_bytes_witness :
    (∀ o ∈ (ClearSocket 5 wholeThenPartialReads).trace, recvHonoursLength o = true) ∧
    ∃ (pre1 : List Obs) (bytes : List Byte),
      [Obs.recv 5 0 80 (.data (block 1 80))] = pre1 ++ [Obs.recv 5 0 BUFLEN (.data bytes)] ∧
      bytes.length = 80 ∧ (block 1 80).map some = bytes.map some ∧ (5 : Int) = 5 :=
  ⟨by decide,
    (C10_buffer_bounds_and_sent_bytes 5 wholeThenPartialReads (by decide)).2.2
      [.recv 5 0 80 (.data (block 1 80))]
      [.recv 5 0 80 (.data (block 2 80)), .send 5 ((block 2 80).map some),
        .recv 5 0 80 (.data (block 3 3)), .recv 5 3 77 (.fail 11)]
      5 ((block 1 80).map some) (by decide)⟩

/-- C4, counterexample: `epoll_wait` returns two entries, the listening socket
and client 7, both readable.  For the first entry `accept` gives 8 and
`epoll_ctl` fails, so `SystemFatal` ends the process: the entry at index 1 < 2 is
never read and no handling action runs for it. -/
theorem C4_counterexample_fatal_accept_path :
    iteration sampleServer 2 listenerThenClient (fun _ => ctlFailsOracle) =
      ⟨[.epoll_wait 4 2, .read 0, .read 0, .read 0, .accept 3 8, .getfl 8 2, .setfl 8 0,
        .epoll_ctl_add 4 8 ⟨INTEREST, 8⟩ (-1), .perror "epoll_ctl", .exit EXIT_FAILURE],
        .halt (.exit EXIT_FAILURE)⟩ ∧
    (1 : Int) ∉ reads (iteration sampleServer 2 listenerThenClient
      (fun _ => ctlFailsOracle)).trace := by
  decide

/-- C4, amended: after `epoll_wait` returned `num_fds >= 0`, the loop of `main`
runs the loop body for the indices 0, 1, ... in increasing order, once each,
up to and including the first index whose handling does not return
(`SystemFatal` in the accept path, the failed assertion of `handleError`, a
`recv` left unanswered); the budget of the embedding never runs out.  Each pass
of the body runs one handling action chosen by priority: with `EPOLLERR` or
`EPOLLHUP` in the flags only the error handling (message, close; no `accept`, no
echo); otherwise, with `EPOLLIN` in the flags, on the listening socket only the
accept path (one `accept`, no action of the echo path), and on any other
descriptor `handleData` after the two tests; with none of the three flags the
assertion of `handleError` fails. -/
theorem C4_dispatch_order_and_priority (s : Server) (num_fds : Int)
    (ready : List EpollEvent) (oracle : Int → Oracle) (h : 0 ≤ num_fds) :
    (iteration s num_fds ready oracle).trace =
      Obs.epoll_wait s.epoll_fd num_fds ::
        servicedTraces ((List.range num_fds.toNat).map fun j : Nat =>
          loopBody { s with events := ready ++ s.events.drop ready.length, i := (j : Int) }
            (oracle (j : Int))) ∧
    (iteration s num_fds ready oracle).res ≠ .halt .fuel ∧
    (∀ (t : Server) (o : Oracle),
      ((readEvent t t.i).events &&& (EPOLLHUP ||| EPOLLERR) ≠ 0 →
        loopBody t o = ⟨[.read t.i, .fputs "epoll: EPOLLERR", .read t.i,
          .close (readEvent t t.i).fd], .ret t⟩) ∧
      (¬ (readEvent t t.i).events &&& (EPOLLHUP ||| EPOLLERR) ≠ 0 →
        (readEvent t t.i).events &&& EPOLLIN ≠ 0 → (readEvent t t.i).fd = t.fd_server →
        (loopBody t o).trace = [.read t.i, .read t.i] ++ (handleConnection t o).trace ∧
        accepts (loopBody t o).trace = [(t.fd_server, o.accept_ret)] ∧
        closes (loopBody t o).trace = [] ∧
        ∀ x ∈ (loopBody t o).trace, x.isEcho = false) ∧
      (¬ (readEvent t t.i).events &&& (EPOLLHUP ||| EPOLLERR) ≠ 0 →
        (readEvent t t.i).events &&& EPOLLIN ≠ 0 → (readEvent t t.i).fd ≠ t.fd_server →
        loopBody t o = (handleData t o).after [.read t.i, .read t.i, .read t.i]) ∧
      (¬ (readEvent t t.i).events &&& (EPOLLHUP ||| EPOLLERR) ≠ 0 →
        ¬ (readEvent t t.i).events &&& EPOLLIN ≠ 0 →
        loopBody t o = ⟨[.read t.i, .read t.i, .assert_fail], .halt .abort⟩)) := by
  obtain ⟨h1, h2, -⟩ := iteration_serviced s num_fds ready oracle h
  refine ⟨h1, h2, ?_⟩
  intro t o
  refine ⟨loopBody_err t o, ?_, loopBody_data t o, loopBody_abort t o⟩
  intro he hin hfd
  obtain ⟨-, hcl, -, hecho⟩ := handleConnection_server t o hfd
  have hacc := handleConnection_accepts t o hfd
  have htr : (loopBody t o).trace = [.read t.i, .read t.i] ++ (handleConnection t o).trace := by
    rcases loopBody_accept t o he hin hfd with ⟨s1, _, _, e⟩ | ⟨_, e⟩ <;> rw [e]
  refine ⟨htr, ?_, ?_, ?_⟩
  · rw [htr, accepts_append, hacc]; simp [accepts, Obs.acceptOf]
  · rw [htr, closes_append, hcl]; simp [closes, Obs.closeOf]
  · intro x hx
    rw [htr] at hx
    simp only [List.cons_append, List.nil_append, List.mem_cons] at hx
    rcases hx with rfl | rfl | hx
    · rfl
    · rfl
    · exact hecho x hx

/-- C4, amended, at a concrete input: the listening socket (a connection is
accepted as descriptor 8), then client 7 (end of stream): the accept path, then
the echo path, in this order. -/
theorem C4_dispatch_order_and_priority_witness :
    (0 : Int) ≤ 2 ∧
    (iteration sampleServer 2 listenerThenClient (fun _ => sampleOracle [.data []])).trace =
      [.epoll_wait 4 2,
        .read 0, .read 0, .read 0, .accept 3 8, .getfl 8 2, .setfl 8 0,
        .epoll_ctl_add 4 8 ⟨INTEREST, 8⟩ 0,
        .read 1, .read 1, .read 1, .read 1, .recv 7 0 80 (.data []), .read 1, .close 7] :=
  ⟨by decide,
    (C4_dispatch_order_and_priority sampleServer 2 listenerThenClient
      (fun _ => sampleOracle [.data []]) (by decide)).1.trans (by decide)⟩

/-- C5: when `handleConnection` returns, it returns 1 exactly when the entry at
the loop index is the listening socket.  On the listening socket it calls
`accept` exactly once; when that `accept` returns -1 it returns 1 with the state
unchanged, registers nothing, and writes a diagnostic (`perror ("accept")`)
exactly when `errno` is neither `EAGAIN` nor `EWOULDBLOCK`.  On any other
descriptor it returns 0 after reading the entry, with no `accept` and the state
unchanged. -/
theorem C5_handleConnection_contract (s : Server) (o : Oracle) :
    (∀ (v : Int) (s1 : Server), (handleConnection s o).res = .ret (v, s1) →
      (v = 1 ↔ (readEvent s s.i).fd = s.fd_server)) ∧
    ((readEvent s s.i).fd = s.fd_server →
      accepts (handleConnection s o).trace = [(s.fd_server, o.accept_ret)]) ∧
    ((readEvent s s.i).fd = s.fd_server → o.accept_ret = -1 →
      (handleConnection s o).res = .ret (1, s) ∧
      registrations (handleConnection s o).trace = [] ∧
      diagnostics (handleConnection s o).trace =
        (if o.errno ≠ EAGAIN ∧ o.errno ≠ EWOULDBLOCK then ["accept"] else [])) ∧
    ((readEvent s s.i).fd ≠ s.fd_server →
      handleConnection s o = ⟨[.read s.i], .ret (0, s)⟩) := by
  refine ⟨?_, handleConnection_accepts s o, ?_, handleConnection_other s o⟩
  · intro v s1 hres
    by_cases hfd : (readEvent s s.i).fd = s.fd_server
    · rcases (handleConnection_server s o hfd).1 with ⟨s2, h2, _⟩ | h2
      · rw [h2] at hres
        simp only [Res.ret.injEq, Prod.mk.injEq] at hres
        simp [← hres.1, hfd]
      · rw [h2] at hres; simp at hres
    · rw [handleConnection_other s o hfd] at hres
      simp only [Res.ret.injEq, Prod.mk.injEq] at hres
      simp [← hres.1, hfd]
  · intro hfd hacc
    unfold handleConnection
    simp only [hfd, hacc, if_true]
    split_ifs <;> simp [registrations, diagnostics, Obs.addOf, Obs.diagnosticOf]

/-- C5 at a concrete input: on the listening socket `accept` fails with
`EAGAIN`: one `accept`, result 1, no diagnostic. -/
theorem C5_handleConnection_contract_witness :
    handleConnection { sampleServer with i := 1 } ⟨-1, 11, 0, 0, 0, []⟩ =
      ⟨[.read 1, .accept 3 (-1)], .ret (1, { sampleServer with i := 1 })⟩ ∧
    diagnostics (handleConnection { sampleServer with i := 1 }
      ⟨-1, 11, 0, 0, 0, []⟩).trace = [] :=
  ⟨by decide,
    ((C5_handleConnection_contract { sampleServer with i := 1 }
      ⟨-1, 11, 0, 0, 0, []⟩).2.2.1 (by decide) rfl).2.2.trans (by decide)⟩

/-- C6, counterexample: `epoll_wait` returns one entry, the listening socket 3
with `EPOLLERR`.  `handleError` closes descriptor 3 and the pass of the loop
returns, so the loop keeps running; when SIGINT arrives during the next
`epoll_wait`, `close_fd` closes descriptor 3 again: two closes in this run. -/
theorem C6_counterexample_handleError_closes_listener :
    iteration sampleServer 1 listenerError (fun _ => sampleOracle []) =
      ⟨[.epoll_wait 4 1, .read 0, .fputs "epoll: EPOLLERR", .read 0, .close 3],
        .ret ⟨3, 4, [⟨EPOLLERR, 3⟩, ⟨EPOLLIN, 3⟩], ⟨INTEREST, 3⟩, 1⟩⟩ ∧
    closes (mainLoop sampleServer
      [.ret 1 listenerError (fun _ => sampleOracle []), .sigint]).trace = [3, 3] := by
  decide

/-- C6, amended: one pass of the loop body closes the listening socket exactly
when the entry is the listening socket and its flags contain `EPOLLERR` or
`EPOLLHUP`; then `handleError` closes it and the pass returns, so the loop goes
on.  No other pass (accept path, echo path) closes it.  The SIGINT handler
`close_fd` closes it once and exits with `EXIT_SUCCESS`; `SystemFatal` closes
nothing. -/
theorem C6_who_closes_the_listening_socket (s : Server) (o : Oracle) (message : String) :
    (s.fd_server ∈ closes (loopBody s o).trace ↔
      ((readEvent s s.i).fd = s.fd_server ∧
        (readEvent s s.i).events &&& (EPOLLHUP ||| EPOLLERR) ≠ 0)) ∧
    ((readEvent s s.i).fd = s.fd_server →
      (readEvent s s.i).events &&& (EPOLLHUP ||| EPOLLERR) ≠ 0 →
      loopBody s o = ⟨[.read s.i, .fputs "epoll: EPOLLERR", .read s.i, .close s.fd_server],
        .ret s⟩) ∧
    (close_fd s : Out Server) =
      ⟨[.close s.fd_server, .exit EXIT_SUCCESS], .halt (.exit EXIT_SUCCESS)⟩ ∧
    closes (SystemFatal message : Out Server).trace = [] := by
  refine ⟨loopBody_closes_server s o, ?_, rfl, ?_⟩
  · intro hfd he
    rw [loopBody_err s o he, hfd]
  · simp [SystemFatal, closes, Obs.closeOf]

/-- C6, amended, at a concrete input: the listening socket with `EPOLLERR`. -/
theorem C6_who_closes_the_listening_socket_witness :
    loopBody ⟨3, 4, listenerError, ⟨INTEREST, 3⟩, 0⟩ (sampleOracle []) =
      ⟨[.read 0, .fputs "epoll: EPOLLERR", .read 0, .close 3],
        .ret ⟨3, 4, listenerError, ⟨INTEREST, 3⟩, 0⟩⟩ :=
  (C6_who_closes_the_listening_socket ⟨3, 4, listenerError, ⟨INTEREST, 3⟩, 0⟩
    (sampleOracle []) "").2.1 (by decide) (by decide)

/-- C7: when `setupFD` and then any number of calls of `handleConnection` (at
any loop index, on any contents of `info.events`) have returned, the interest
mask of the shared `event` is `EPOLLIN | EPOLLERR | EPOLLHUP | EPOLLET`, and the
registrations performed are, in order: the listening socket, and one
`EPOLL_CTL_ADD` for each descriptor a call accepted, on the same epoll
descriptor, each with exactly that mask and with `data.fd` the descriptor
registered.  A returning `handleConnection` changes nothing of the state but
`event.data.fd`. -/
theorem C7_registration_keeps_interest_mask (s0 : Server)
    (listen_ret create_ret ctl_ret : Int)
    (calls : List (Int × List EpollEvent × Oracle)) (tr : List Obs) (s : Server)
    (h : ((setupFD s0 listen_ret create_ret ctl_ret).bind fun s1 => connCalls s1 calls) =
      ⟨tr, .ret s⟩) :
    s.event.events = EPOLLIN ||| EPOLLERR ||| EPOLLHUP ||| EPOLLET ∧
    registrations tr =
      (create_ret, s0.fd_server,
          (⟨EPOLLIN ||| EPOLLERR ||| EPOLLHUP ||| EPOLLET, s0.fd_server⟩ : EpollEvent)) ::
        calls.filterMap (fun call => (acceptedBy s0.fd_server call).map fun fd =>
          (create_ret, fd,
            (⟨EPOLLIN ||| EPOLLERR ||| EPOLLHUP ||| EPOLLET, fd⟩ : EpollEvent))) ∧
    (∀ (t : Server) (o : Oracle) (v : Int) (t1 : Server),
      (handleConnection t o).res = .ret (v, t1) →
      t1.event.events = t.event.events ∧ t1.fd_server = t.fd_server ∧
      t1.epoll_fd = t.epoll_fd ∧ t1.events = t.events ∧ t1.i = t.i) := by
  refine ⟨?_, ?_, ?_⟩
  · cases hres : (setupFD s0 listen_ret create_ret ctl_ret).res with
    | halt e => rw [bind_halt _ _ e hres] at h; simp at h
    | ret s1 =>
      rw [bind_trace_ret _ _ s1 hres] at h
      simp only [Out.mk.injEq] at h
      obtain ⟨hs1, -⟩ := setupFD_registers s0 listen_ret create_ret ctl_ret _ s1
        (out_eq _ _ hres)
      obtain ⟨b1, -, -, -⟩ := connCalls_registers calls s1 _ s (out_eq _ _ h.2)
      rw [b1, hs1]; rfl
  · cases hres : (setupFD s0 listen_ret create_ret ctl_ret).res with
    | halt e => rw [bind_halt _ _ e hres] at h; simp at h
    | ret s1 =>
      rw [bind_trace_ret _ _ s1 hres] at h
      simp only [Out.mk.injEq] at h
      obtain ⟨hs1, hreg⟩ := setupFD_registers s0 listen_ret create_ret ctl_ret _ s1
        (out_eq _ _ hres)
      obtain ⟨-, -, -, b4⟩ := connCalls_registers calls s1 _ s (out_eq _ _ h.2)
      rw [← h.1, registrations_append, hreg, b4, hs1]
      rfl
  · intro t o v t1 hres
    obtain ⟨a1, a2, a3, a4, a5, -⟩ := handleConnection_registers t o v t1 hres
    exact ⟨a1, a2, a3, a4, a5⟩

/-- C7 at a concrete input: `setupFD`, then three calls of `handleConnection`
(a connection accepted as descriptor 8, an entry of client 7, a failing
`accept`): two registrations, both with the full mask. -/
theorem C7_registration_keeps_interest_mask_witness :
    registrations ((setupFD freshServer 0 4 0).bind fun s1 => connCalls s1 sampleCalls).trace =
      [(4, 3, ⟨EPOLLIN ||| EPOLLERR ||| EPOLLHUP ||| EPOLLET, 3⟩),
        (4, 8, ⟨EPOLLIN ||| EPOLLERR ||| EPOLLHUP ||| EPOLLET, 8⟩)] :=
  (C7_registration_keeps_interest_mask freshServer 0 4 0 sampleCalls
    ((setupFD freshServer 0 4 0).bind fun s1 => connCalls s1 sampleCalls).trace
    ⟨3, 4, [⟨EPOLLIN, 3⟩], ⟨INTEREST, 8⟩, 0⟩ (by decide)).2.1.trans (by decide)

/-- C8: in one pass of `while (TRUE)` with a count `0 <= num_fds <= EPOLL_QUEUE_LEN`
every read of `info.events` by `main` and the handlers is at an index `idx` with
`0 <= idx < num_fds` (so inside the array), and the loop does not run out of
budget; `handleError`, `handleConnection` and `handleData` return with the loop
index unchanged; with a negative count the pass is fatal (`SystemFatal`) and
reads no entry. -/
theorem C8_reads_stay_below_the_count (s : Server) (num_fds : Int)
    (ready : List EpollEvent) (oracle : Int → Oracle) :
    (0 ≤ num_fds → num_fds ≤ (EPOLL_QUEUE_LEN : Int) →
      (∀ idx ∈ reads (iteration s num_fds ready oracle).trace,
        0 ≤ idx ∧ idx < num_fds ∧ idx < (EPOLL_QUEUE_LEN : Int)) ∧
      (iteration s num_fds ready oracle).res ≠ .halt .fuel) ∧
    (∀ (t : Server) (v : Int) (t1 : Server),
      (handleError t).res = .ret (v, t1) → t1.i = t.i) ∧
    (∀ (t : Server) (o : Oracle) (v : Int) (t1 : Server),
      (handleConnection t o).res = .ret (v, t1) → t1.i = t.i) ∧
    (∀ (t : Server) (o : Oracle) (t1 : Server),
      (handleData t o).res = .ret t1 → t1.i = t.i) ∧
    (num_fds < 0 →
      iteration s num_fds ready oracle =
        ⟨[.epoll_wait s.epoll_fd num_fds, .perror "Error in epoll_wait!",
          .exit EXIT_FAILURE], .halt (.exit EXIT_FAILURE)⟩ ∧
      reads (iteration s num_fds ready oracle).trace = []) := by
  refine ⟨?_, ?_, ?_, ?_, ?_⟩
  · intro h0 h256
    obtain ⟨-, h2, h3⟩ := iteration_serviced s num_fds ready oracle h0
    refine ⟨?_, h2⟩
    intro idx hidx
    obtain ⟨a, b⟩ := h3 idx hidx
    exact ⟨a, b, by omega⟩
  · intro t v t1 hres
    rw [handleError_keeps_state t v t1 hres]
  · intro t o v t1 hres
    exact (handleConnection_registers t o v t1 hres).2.2.2.2.1
  · intro t o t1 hres
    rw [handleData_keeps_state t o t1 hres]
  · intro hneg
    rw [iteration_negative s num_fds ready oracle hneg]
    exact ⟨rfl, by simp [reads, Obs.readOf]⟩

/-- C8 at a concrete input: two ready entries, the reads are at the indices 0
and 1. -/
theorem C8_reads_stay_below_the_count_witness :
    reads (iteration sampleServer 2 listenerThenClient
      (fun _ => sampleOracle [.data []])).trace = [0, 0, 0, 1, 1, 1, 1, 1] ∧
    ∀ idx ∈ reads (iteration sampleServer 2 listenerThenClient
      (fun _ => sampleOracle [.data []])).trace,
      0 ≤ idx ∧ idx < 2 ∧ idx < (EPOLL_QUEUE_LEN : Int) :=
  ⟨by decide,
    ((C8_reads_stay_below_the_count sampleServer 2 listenerThenClient
      (fun _ => sampleOracle [.data []])).1 (by decide) (by decide)).1⟩

end EpollServer
